import Mathlib

/-!
Verification of the modular lexer of the yab (yet another bundler) JavaScript
bundler, crate yab-parser.  The Rust sources under crates/yab-parser/src/lexer
are embedded shallowly: each sub-lexer becomes a Lean function over an explicit
character list (the remaining input of the CodeIter / Peekable char iterator),
errors become the Except monad, and a Rust panic (an unwrap that can fail) is
modelled as a distinguished error value.  Machine-integer arithmetic that can
overflow (the u32 accumulator of braced Unicode escapes) is modelled with an
explicit reduction mod 2 ^ 32 (release-build wrapping semantics).  IEEE-754
doubles are abstracted to exact rationals; every concrete value appearing in a
theorem below is exactly representable, and the integer range checks that the
claims are about are modelled exactly.
-/

namespace Yab

/-- Decidable equality for Except results, used to evaluate the lexer on
concrete inputs inside proofs. -/
instance {e a : Type} [DecidableEq e] [DecidableEq a] : DecidableEq (Except e a) := fun x y =>
  match x, y with
  | .ok x1, .ok y1 =>
    match decEq x1 y1 with
    | isTrue h => isTrue (h ▸ rfl)
    | isFalse h => isFalse (fun hh => h (Except.ok.inj hh))
  | .error x1, .error y1 =>
    match decEq x1 y1 with
    | isTrue h => isTrue (h ▸ rfl)
    | isFalse h => isFalse (fun hh => h (Except.error.inj hh))
  | .ok _, .error _ => isFalse (fun hh => Except.noConfusion hh)
  | .error _, .ok _ => isFalse (fun hh => Except.noConfusion hh)

/-- Line terminators as defined in lexer/utils.rs (is_line_terminator). -/
def isLineTerminator (c : Char) : Bool :=
  c = '\n' || c = '\r' || c = Char.ofNat 0x2028 || c = Char.ofNat 0x2029

/-- Numeric value of an ASCII digit or letter, as in Rust char::to_digit:
digits map to 0-9, letters case-insensitively to 10-35. -/
def charToDigit (c : Char) : Option Nat :=
  if '0' ≤ c && c ≤ '9' then some (c.toNat - 48)
  else if 'a' ≤ c && c ≤ 'z' then some (c.toNat - 97 + 10)
  else if 'A' ≤ c && c ≤ 'Z' then some (c.toNat - 65 + 10)
  else none

/-- Rust char::to_digit(base): the digit value when it is below the base. -/
def toDigit (c : Char) (base : Nat) : Option Nat :=
  match charToDigit c with
  | some v => if v < base then some v else none
  | none => none

/-- ASCII hexadecimal digit test (Rust is_ascii_hexdigit / nom is_hex_digit). -/
def isHexDigit (c : Char) : Bool :=
  (toDigit c 16).isSome

/-- ASCII octal digit test (nom is_oct_digit). -/
def isOctDigit (c : Char) : Bool :=
  (toDigit c 8).isSome

/-- ASCII decimal digit test (Rust is_ascii_digit). -/
def isAsciiDigit (c : Char) : Bool :=
  (toDigit c 10).isSome

/-! ## Operators and punctuation (lexer/operator.rs, lexer/punctuation.rs)

Each enum keeps the lexemes attached by the token(lexeme = ...) attribute;
the EnumString-derived TryFrom implementation matches exactly the serialize
string of each variant, which coincides with its lexeme. -/

inductive OperatorType where
  | Plus | Minus | Multiplication | Division | Exponentiation | Modulo
  | Increment | Decrement | Assignment | MultiplicationAssignment
  | DivisionAssignment | AdditionAssignment | SubtractionAssigment
  | ShiftLeftAssignment | ShiftRightAssignment | ShiftRightUnsignedAssignment
  | BitwiseAndAssignment | BitwiseOrAssignment | BitwiseXOrAssignment
  | LogicalAndAssignment | LogicalOrAssignment | NullishCoalescingAssignment
  | LooseEquality | LooseNotEquality | StrictEquality | StrictNotEquality
  | LogicalNot | LogicalAnd | LogicalOr | NullishCoalescing | BitwiseNot
  | BitwiseAnd | BitwiseOr | BitwiseXOr | BitwiseShiftLeft | BitwiseShiftRight
  | BitwiseShiftRightUnsigned | GreaterThan | GreaterThanOrEqualTo | LessThan
  | LessThanOrEqualTo | Ternary | ObjectSpread | Await | Void | TypeOf
  | InstanceOf | In | Yield
  deriving DecidableEq

/-- The lexeme of each operator, from the token(lexeme = ...) attributes. -/
def OperatorType.lexeme : OperatorType → List Char
  | .Plus => ['+']
  | .Minus => ['-']
  | .Multiplication => ['*']
  | .Division => ['/']
  | .Exponentiation => ['*', '*']
  | .Modulo => ['%']
  | .Increment => ['+', '+']
  | .Decrement => ['-', '-']
  | .Assignment => ['=']
  | .MultiplicationAssignment => ['*', '=']
  | .DivisionAssignment => ['/', '=']
  | .AdditionAssignment => ['+', '=']
  | .SubtractionAssigment => ['-', '=']
  | .ShiftLeftAssignment => ['<', '<', '=']
  | .ShiftRightAssignment => ['>', '>', '=']
  | .ShiftRightUnsignedAssignment => ['>', '>', '>', '=']
  | .BitwiseAndAssignment => ['&', '=']
  | .BitwiseOrAssignment => ['|', '=']
  | .BitwiseXOrAssignment => ['^', '=']
  | .LogicalAndAssignment => ['&', '&', '=']
  | .LogicalOrAssignment => ['|', '|', '=']
  | .NullishCoalescingAssignment => ['?', '?', '=']
  | .LooseEquality => ['=', '=']
  | .LooseNotEquality => ['!', '=']
  | .StrictEquality => ['=', '=', '=']
  | .StrictNotEquality => ['!', '=', '=']
  | .LogicalNot => ['!']
  | .LogicalAnd => ['&', '&']
  | .LogicalOr => ['|', '|']
  | .NullishCoalescing => ['?', '?']
  | .BitwiseNot => ['~']
  | .BitwiseAnd => ['&']
  | .BitwiseOr => ['|']
  | .BitwiseXOr => ['^']
  | .BitwiseShiftLeft => ['<', '<']
  | .BitwiseShiftRight => ['>', '>']
  | .BitwiseShiftRightUnsigned => ['>', '>', '>']
  | .GreaterThan => ['>']
  | .GreaterThanOrEqualTo => ['>', '=']
  | .LessThan => ['<']
  | .LessThanOrEqualTo => ['<', '=']
  | .Ternary => ['?']
  | .ObjectSpread => ['.', '.', '.']
  | .Await => ['a', 'w', 'a', 'i', 't']
  | .Void => ['v', 'o', 'i', 'd']
  | .TypeOf => ['t', 'y', 'p', 'e', 'o', 'f']
  | .InstanceOf => ['i', 'n', 's', 't', 'a', 'n', 'c', 'e', 'o', 'f']
  | .In => ['i', 'n']
  | .Yield => ['y', 'i', 'e', 'l', 'd']

/-- Every variant of OperatorType, in declaration order. -/
def allOperators : List OperatorType :=
  [.Plus, .Minus, .Multiplication, .Division, .Exponentiation, .Modulo,
   .Increment, .Decrement, .Assignment, .MultiplicationAssignment,
   .DivisionAssignment, .AdditionAssignment, .SubtractionAssigment,
   .ShiftLeftAssignment, .ShiftRightAssignment, .ShiftRightUnsignedAssignment,
   .BitwiseAndAssignment, .BitwiseOrAssignment, .BitwiseXOrAssignment,
   .LogicalAndAssignment, .LogicalOrAssignment, .NullishCoalescingAssignment,
   .LooseEquality, .LooseNotEquality, .StrictEquality, .StrictNotEquality,
   .LogicalNot, .LogicalAnd, .LogicalOr, .NullishCoalescing, .BitwiseNot,
   .BitwiseAnd, .BitwiseOr, .BitwiseXOr, .BitwiseShiftLeft, .BitwiseShiftRight,
   .BitwiseShiftRightUnsigned, .GreaterThan, .GreaterThanOrEqualTo, .LessThan,
   .LessThanOrEqualTo, .Ternary, .ObjectSpread, .Await, .Void, .TypeOf,
   .InstanceOf, .In, .Yield]

/-- EnumString TryFrom for OperatorType: the variant whose serialization
(equal to its lexeme) is exactly the given string, if any. -/
def OperatorType.tryFrom (s : List Char) : Option OperatorType :=
  allOperators.find? (fun t => t.lexeme == s)

inductive PunctuationType where
  | Semicolon | Colon | OpenParen | CloseParen | OpenBracket | CloseBracket
  | OpenBrace | CloseBrace | Dot | Comma
  deriving DecidableEq

/-- The lexeme of each punctuator, from the token(lexeme = ...) attributes. -/
def PunctuationType.lexeme : PunctuationType → List Char
  | .Semicolon => [';']
  | .Colon => [':']
  | .OpenParen => ['(']
  | .CloseParen => [')']
  | .OpenBracket => ['[']
  | .CloseBracket => [']']
  | .OpenBrace => [Char.ofNat 123]
  | .CloseBrace => [Char.ofNat 125]
  | .Dot => ['.']
  | .Comma => [',']

/-- Every variant of PunctuationType, in declaration order. -/
def allPunctuation : List PunctuationType :=
  [.Semicolon, .Colon, .OpenParen, .CloseParen, .OpenBracket, .CloseBracket,
   .OpenBrace, .CloseBrace, .Dot, .Comma]

/-- EnumString TryFrom for PunctuationType. -/
def PunctuationType.tryFrom (s : List Char) : Option PunctuationType :=
  allPunctuation.find? (fun t => t.lexeme == s)

/-- The lexeme sets over which the prefix lookup operates. -/
def opLexemes : List (List Char) := allOperators.map OperatorType.lexeme

def punctLexemes : List (List Char) := allPunctuation.map PunctuationType.lexeme

/-! ## Prefix lookup (yab-parser-macros lib.rs and lexer/utils.rs)

The derive macro precomputes, for every non-empty prefix of every lexeme, the
list of lexemes starting with that prefix; fields_starting_with returns the
length of that list and 0 for any string that is not such a prefix.  That is
exactly the count of lexemes having the argument as a prefix. -/

/-- Number of lexemes in the set that start with the given prefix
(HasPrefixLookup derive, fields_starting_with). -/
def fieldsStartingWith (lexemes : List (List Char)) (p : List Char) : Nat :=
  (lexemes.filter (fun l => p.isPrefixOf l)).length

/-- The greedy extension loop of try_parse_from_prefix_lookup: keep the
accumulated prefix while appending the next character leaves at least one
lexeme starting with it; when the count falls to 0, stop without consuming
that character.  Returns the resolved prefix and the remaining input. -/
def prefixLoop (lexemes : List (List Char)) :
    List Char → List Char → List Char × List Char
  | acc, [] => (acc, [])
  | acc, c :: rest =>
    if fieldsStartingWith lexemes (acc ++ [c]) = 0 then (acc, c :: rest)
    else prefixLoop lexemes (acc ++ [c]) rest

/-- Embedding of try_parse_from_prefix_lookup (lexer/utils.rs).  The Rust
function ends with T::try_from(prefix_ref).unwrap(); the unwrap panics when
the resolved prefix is not the serialization of any variant, which is
modelled as the Except error value. -/
def tryParseFromPrefixLookup {T : Type} (tryFrom : List Char → Option T)
    (lexemes : List (List Char)) (input : List Char) :
    Except Unit (Option T × List Char) :=
  match input with
  | [] => .ok (none, [])
  | c :: rest =>
    if 0 < fieldsStartingWith lexemes [c] then
      match tryFrom (prefixLoop lexemes [c] rest).1 with
      | some t => .ok (some t, (prefixLoop lexemes [c] rest).2)
      | none => .error ()
    else .ok (none, c :: rest)

/-- Embedding of try_parse_operator (lexer/operator.rs). -/
def tryParseOperator (input : List Char) :
    Except Unit (Option OperatorType × List Char) :=
  tryParseFromPrefixLookup OperatorType.tryFrom opLexemes input

/-- Embedding of try_parse_punctuation (lexer/punctuation.rs). -/
def tryParsePunctuation (input : List Char) :
    Except Unit (Option PunctuationType × List Char) :=
  tryParseFromPrefixLookup PunctuationType.tryFrom punctLexemes input

/-! ## Escape sequences (lexer/escape_chars.rs)

try_parse_escape assumes the leading backslash has been consumed and decodes
one escape unit to zero or one character.  The u32 accumulator of the braced
Unicode form is modelled with wrapping arithmetic mod 2 ^ 32. -/

/-- Validity condition of Rust std char::from_u32: not a surrogate and at
most 0x10FFFF. -/
def charFromU32 (v : Nat) : Option Char :=
  if v < 0xd800 || (0xe000 ≤ v && v < 0x110000) then some (Char.ofNat v)
  else none

/-- Wrapping u32 arithmetic. -/
def wrap32 (n : Nat) : Nat := n % 4294967296

/-- The consumption loop of the braced branch of parse_unicode_escape_sequence:
hex digits accumulate into the (wrapping u32) value, the closing brace stops,
anything else (including end of input) is an invalid escape. -/
def parseBracedUnicode : Nat → List Char → Except String (Nat × List Char)
  | _, [] => .error "Invalid hexadecimal escape sequence"
  | value, c :: rest =>
    if isHexDigit c then
      parseBracedUnicode (wrap32 (value * 16 + (toDigit c 16).getD 0)) rest
    else if c = Char.ofNat 125 then .ok (value, rest)
    else .error "Invalid hexadecimal escape sequence"

/-- The value the braced loop accumulates over a digit run, with u32
wrapping at each step. -/
def bracedValue (ds : List Char) : Nat :=
  ds.foldl (fun a c => wrap32 (a * 16 + (toDigit c 16).getD 0)) 0

/-- The fixed four-digit branch of parse_unicode_escape_sequence: exactly n
further characters, each a hex digit. -/
def parseFixedHex : Nat → Nat → List Char → Except String (Nat × List Char)
  | value, 0, l => .ok (value, l)
  | _, _ + 1, [] => .error "Invalid hexadecimal escape sequence"
  | value, n + 1, c :: rest =>
    if isHexDigit c then parseFixedHex (value * 16 + (toDigit c 16).getD 0) n rest
    else .error "Invalid hexadecimal escape sequence"

/-- Shared tail of parse_unicode_escape_sequence: range check then
char::from_u32. -/
def unicodeValueToChar (value : Nat) (rem : List Char) :
    Except String (Char × List Char) :=
  if 0x10ffff < value then .error "Undefined Unicode code-point"
  else
    match charFromU32 value with
    | some ch => .ok (ch, rem)
    | none => .error "Invalid Unicode code-point"

/-- Embedding of parse_unicode_escape_sequence (lexer/escape_chars.rs),
called just after the u of a Unicode escape. -/
def parseUnicodeEscapeSequence (input : List Char) :
    Except String (Char × List Char) :=
  match input with
  | c :: rest =>
    if c = Char.ofNat 123 then
      match parseBracedUnicode 0 rest with
      | .error e => .error e
      | .ok (value, rem) => unicodeValueToChar value rem
    else
      match parseFixedHex 0 4 input with
      | .error e => .error e
      | .ok (value, rem) => unicodeValueToChar value rem
  | [] =>
    match parseFixedHex 0 4 [] with
    | .error e => .error e
    | .ok (value, rem) => unicodeValueToChar value rem

/-- Up to n further octal digits of parse_octal_escape_sequence. -/
def octalSteps : Nat → Nat → List Char → Nat × List Char
  | 0, value, l => (value, l)
  | n + 1, value, l =>
    match l with
    | c :: rest =>
      if isOctDigit c then octalSteps n (value * 8 + (toDigit c 8).getD 0) rest
      else (value, l)
    | [] => (value, l)

/-- Embedding of parse_octal_escape_sequence: the initial digit has been
consumed by the caller and is passed in, at most two more are read, and a
value above octal 377 is out of range. -/
def parseOctalEscapeSequence (init : Char) (l : List Char) :
    Except String (Char × List Char) :=
  match toDigit init 8 with
  | none =>
    .error ("internal parser error: caller must check that '" ++
      String.mk [init] ++ "' is a valid octal")
  | some v0 =>
    if 255 < (octalSteps 2 v0 l).1 then
      .error ("invalid octal escape sequence: out of range: " ++
        toString (octalSteps 2 v0 l).1)
    else .ok (Char.ofNat (octalSteps 2 v0 l).1, (octalSteps 2 v0 l).2)

/-- Embedding of parse_hex_escape_sequence: exactly two hex digits. -/
def parseHexEscapeSequence : List Char → Except String (Char × List Char)
  | c1 :: rest =>
    if isHexDigit c1 then
      match rest with
      | c2 :: rest2 =>
        if isHexDigit c2 then
          match charFromU32 ((toDigit c1 16).getD 0 * 16 + (toDigit c2 16).getD 0) with
          | some ch => .ok (ch, rest2)
          | none => .error "Invalid hexadecimal escape sequence"
        else .error "Invalid hexadecimal escape sequence"
      | [] => .error "Invalid hexadecimal escape sequence"
    else .error "Invalid hexadecimal escape sequence"
  | [] => .error "Invalid hexadecimal escape sequence"

/-- Embedding of parse_multi_byte_escape: octal, hex or Unicode escapes, and
any other character as itself. -/
def parseMultiByteEscape (init : Char) (l : List Char) :
    Except String (Char × List Char) :=
  if isOctDigit init then parseOctalEscapeSequence init l
  else if init = 'x' then parseHexEscapeSequence l
  else if init = 'u' then parseUnicodeEscapeSequence l
  else .ok (init, l)

/-- Embedding of try_parse_escape (lexer/escape_chars.rs): the character after
the backslash selects a single-character escape, a line continuation (which
produces no character), or a multi-byte escape; end of input is fatal. -/
def tryParseEscape : List Char → Except String (Option Char × List Char)
  | [] => .error "Unexpected EOF while parsing escape sequence"
  | c :: rest =>
    if c = 'b' then .ok (some (Char.ofNat 8), rest)
    else if c = 'f' then .ok (some (Char.ofNat 12), rest)
    else if c = 'n' then .ok (some (Char.ofNat 10), rest)
    else if c = 'r' then .ok (some (Char.ofNat 13), rest)
    else if c = 't' then .ok (some (Char.ofNat 9), rest)
    else if c = 'v' then .ok (some (Char.ofNat 11), rest)
    else if c = Char.ofNat 34 then .ok (some (Char.ofNat 34), rest)
    else if c = Char.ofNat 39 then .ok (some (Char.ofNat 39), rest)
    else if c = Char.ofNat 10 || c = Char.ofNat 13 ||
        c = Char.ofNat 0x2028 || c = Char.ofNat 0x2029 then .ok (none, rest)
    else
      match parseMultiByteEscape c rest with
      | .ok (ch, rem) => .ok (some ch, rem)
      | .error e => .error e

/-! ## String literals (lexer/string.rs)

The character loop of try_parse_string.  The fuel argument bounds the number
of loop iterations; callers pass the input length, which always suffices
because every iteration consumes at least one character, so the exhaustion
branch is unreachable and no theorem relies on it. -/

def stringLoop : Nat → Char → List Char → List Char →
    Except String (List Char × List Char)
  | _, _, _, [] => .error "Unexpected EOF while parsing string literal"
  | 0, _, _, _ :: _ => .error "internal lexer error: loop fuel exhausted"
  | fuel + 1, delim, lexeme, c :: rest =>
    if c = delim then .ok (lexeme, rest)
    else if isLineTerminator c then
      .error "Unexpected line terminator while parsing string literal"
    else if c = Char.ofNat 92 then
      match tryParseEscape rest with
      | .error e => .error e
      | .ok (oc, rest2) =>
        stringLoop fuel delim (lexeme ++ (oc.map (fun ec => [ec])).getD []) rest2
    else stringLoop fuel delim (lexeme ++ [c]) rest

/-- Embedding of try_parse_string (lexer/string.rs): an opening quote fixes
the closing delimiter, characters and escapes accumulate until the unescaped
delimiter; no opening quote means no match with nothing consumed. -/
def tryParseString (input : List Char) :
    Except String (Option (List Char) × List Char) :=
  match input with
  | c :: rest =>
    if c = Char.ofNat 39 || c = Char.ofNat 34 then
      match stringLoop input.length c [] rest with
      | .error e => .error e
      | .ok (lexeme, rem) => .ok (some lexeme, rem)
    else .ok (none, input)
  | [] => .ok (none, [])

/-! ## Template literals (lexer/template.rs) -/

/-- A template literal string segment: its text and whether it reached the
closing backtick (complete) or stopped at an expression opener. -/
structure TemplateLiteralString where
  lexeme : List Char
  complete : Bool
  deriving DecidableEq

/-- Marker for the template literal expression opener (the two characters
dollar + open brace). -/
inductive TemplateLiteralExprOpen where
  | mk
  deriving DecidableEq

/-- Marker for the template literal expression closer (a close brace in
template context). -/
inductive TemplateLiteralExprClose where
  | mk
  deriving DecidableEq

/-- The character loop of parse_template_literal_string, with the same fuel
convention as stringLoop.  A backtick ends the template (complete), a dollar
followed by an open brace ends the segment with an expression opener, a
dollar followed by anything else is ordinary text, escapes are decoded, and
end of input is fatal. -/
def templateLoop : Nat → List Char → List Char →
    Except String (TemplateLiteralString × Option TemplateLiteralExprOpen × List Char)
  | _, _, [] => .error "Unexpected EOF while parsing template literal"
  | 0, _, _ :: _ => .error "internal lexer error: loop fuel exhausted"
  | fuel + 1, lexeme, c :: rest =>
    if c = Char.ofNat 96 then .ok (⟨lexeme, true⟩, none, rest)
    else if c = Char.ofNat 36 then
      match rest with
      | c2 :: rest2 =>
        if c2 = Char.ofNat 123 then .ok (⟨lexeme, false⟩, some .mk, rest2)
        else templateLoop fuel (lexeme ++ [Char.ofNat 36]) rest
      | [] => templateLoop fuel (lexeme ++ [Char.ofNat 36]) rest
    else if c = Char.ofNat 92 then
      match tryParseEscape rest with
      | .error e => .error e
      | .ok (oc, rest2) =>
        templateLoop fuel (lexeme ++ (oc.map (fun ec => [ec])).getD []) rest2
    else templateLoop fuel (lexeme ++ [c]) rest

/-- Embedding of parse_template_literal_string (lexer/template.rs), entered
just after an opening backtick or a consumed close brace. -/
def parseTemplateLiteralString (input : List Char) :
    Except String (TemplateLiteralString × Option TemplateLiteralExprOpen × List Char) :=
  templateLoop input.length [] input

/-- Embedding of try_parse_template_literal_start (lexer/template.rs). -/
def tryParseTemplateLiteralStart (input : List Char) :
    Except String (Option (TemplateLiteralString × Option TemplateLiteralExprOpen) × List Char) :=
  match input with
  | c :: rest =>
    if c = Char.ofNat 96 then
      match parseTemplateLiteralString rest with
      | .error e => .error e
      | .ok (tls, op, rem) => .ok (some (tls, op), rem)
    else .ok (none, input)
  | [] => .ok (none, [])

/-- Embedding of try_parse_template_literal_expr_end (lexer/template.rs):
a close brace in template context resumes template-string scanning. -/
def tryParseTemplateLiteralExprEnd (input : List Char) :
    Except String (Option (TemplateLiteralExprClose × TemplateLiteralString ×
      Option TemplateLiteralExprOpen) × List Char) :=
  match input with
  | c :: rest =>
    if c = Char.ofNat 125 then
      match parseTemplateLiteralString rest with
      | .error e => .error e
      | .ok (tls, op, rem) => .ok (some (.mk, tls, op), rem)
    else .ok (none, input)
  | [] => .ok (none, [])

/-! ## Identifiers, keywords and value literals (lexer/ident.rs)

The Unicode is_alphabetic / is_alphanumeric predicates of the source are
modelled by the ASCII Char.isAlpha / Char.isAlphanum; every input of the
claims is ASCII. -/

inductive KeywordType where
  | Async | Const | Function | Import | Export | New | Return | Super | This
  deriving DecidableEq

/-- Snake-case serialization of each keyword (EnumString). -/
def KeywordType.lexeme : KeywordType → List Char
  | .Async => ['a', 's', 'y', 'n', 'c']
  | .Const => ['c', 'o', 'n', 's', 't']
  | .Function => ['f', 'u', 'n', 'c', 't', 'i', 'o', 'n']
  | .Import => ['i', 'm', 'p', 'o', 'r', 't']
  | .Export => ['e', 'x', 'p', 'o', 'r', 't']
  | .New => ['n', 'e', 'w']
  | .Return => ['r', 'e', 't', 'u', 'r', 'n']
  | .Super => ['s', 'u', 'p', 'e', 'r']
  | .This => ['t', 'h', 'i', 's']

def allKeywords : List KeywordType :=
  [.Async, .Const, .Function, .Import, .Export, .New, .Return, .Super, .This]

def KeywordType.tryFrom (s : List Char) : Option KeywordType :=
  allKeywords.find? (fun t => t.lexeme == s)

inductive ValueLiteralType where
  | True | False | Null
  deriving DecidableEq

def ValueLiteralType.lexeme : ValueLiteralType → List Char
  | .True => ['t', 'r', 'u', 'e']
  | .False => ['f', 'a', 'l', 's', 'e']
  | .Null => ['n', 'u', 'l', 'l']

def allValueLiterals : List ValueLiteralType := [.True, .False, .Null]

def ValueLiteralType.tryFrom (s : List Char) : Option ValueLiteralType :=
  allValueLiterals.find? (fun t => t.lexeme == s)

/-- Classification of a collected identifier-like lexeme
(IdentParseResult in lexer/ident.rs). -/
inductive IdentParseResult where
  | Identifier (lexeme : List Char)
  | Keyword (kind : KeywordType)
  | ValueLiteral (kind : ValueLiteralType)
  | Operator (kind : OperatorType)
  deriving DecidableEq

/-- The position-dependent identifier character class (the token_pred closure
in try_parse_identifier). -/
def tokenPred (atStart : Bool) (c : Char) : Bool :=
  if atStart then c.isAlpha || c = '_' || c = Char.ofNat 36
  else c.isAlphanum || c = '_' || c = Char.ofNat 36

/-- The character loop of try_parse_identifier, with the fuel convention of
stringLoop.  A backslash consumes an escape: a decoded character must satisfy
the class for its position, a line continuation is skipped without ending the
run (at_start is not updated in that case, as in the source). -/
def identLoop : Nat → Bool → List Char → List Char →
    Except String (List Char × List Char)
  | _, _, lexeme, [] => .ok (lexeme, [])
  | 0, _, _, _ :: _ => .error "internal lexer error: loop fuel exhausted"
  | fuel + 1, atStart, lexeme, c :: rest =>
    if c = Char.ofNat 92 then
      match tryParseEscape rest with
      | .error e => .error e
      | .ok (some ec, rest2) =>
        if tokenPred atStart ec then identLoop fuel false (lexeme ++ [ec]) rest2
        else .error "Invalid escape sequence in identifier"
      | .ok (none, rest2) => identLoop fuel atStart lexeme rest2
    else if tokenPred atStart c then identLoop fuel false (lexeme ++ [c]) rest
    else .ok (lexeme, c :: rest)

/-- Embedding of try_parse_identifier (lexer/ident.rs): collect the maximal
identifier run, then classify as keyword, reserved-word operator, value
literal, or plain identifier; an empty run is no match. -/
def tryParseIdentifier (input : List Char) :
    Except String (Option IdentParseResult × List Char) :=
  match identLoop input.length true [] input with
  | .error e => .error e
  | .ok (lexeme, rem) =>
    if lexeme.isEmpty then .ok (none, rem)
    else
      match KeywordType.tryFrom lexeme with
      | some k => .ok (some (.Keyword k), rem)
      | none =>
        match OperatorType.tryFrom lexeme with
        | some op => .ok (some (.Operator op), rem)
        | none =>
          match ValueLiteralType.tryFrom lexeme with
          | some v => .ok (some (.ValueLiteral v), rem)
          | none => .ok (some (.Identifier lexeme), rem)

/-- A run of line-continuation escape units: zero or more pairs of a
backslash followed by a line terminator.  The identifier lexer can consume
such a run and still report no match. -/
def isLCRun : List Char → Bool
  | [] => true
  | [_] => false
  | c :: c2 :: rest => c = Char.ofNat 92 && isLineTerminator c2 && isLCRun rest

/-! ## Comments (lexer/comment.rs) -/

inductive CommentType where
  | Block (text : List Char)
  | Line (text : List Char)
  | Hashbang (text : List Char)
  deriving DecidableEq

/-- Embedding of parse_line_comment: Iterator::take_while collects until a
line terminator and consumes the terminator itself. -/
def parseLineComment (input : List Char) : CommentType × List Char :=
  (.Line (input.takeWhile (fun c => !isLineTerminator c)),
   (input.dropWhile (fun c => !isLineTerminator c)).drop 1)

/-- The character loop of parse_block_comment: a star immediately followed by
a slash consumes both and stops; otherwise the character joins the text.  End
of input simply ends the comment. -/
def blockCommentLoop : List Char → List Char × List Char
  | [] => ([], [])
  | c :: rest =>
    if c = '*' && rest.head? = some '/' then ([], rest.drop 1)
    else (c :: (blockCommentLoop rest).1, (blockCommentLoop rest).2)

/-- Embedding of parse_block_comment (lexer/comment.rs). -/
def parseBlockComment (input : List Char) : CommentType × List Char :=
  (.Block (blockCommentLoop input).1, (blockCommentLoop input).2)

/-- Embedding of try_parse_comment (lexer/comment.rs): two leading slashes
start a line comment, slash-star starts a block comment, anything else is no
match with nothing consumed.  The function itself cannot fail. -/
def tryParseComment (input : List Char) : Option CommentType × List Char :=
  match input with
  | c1 :: c2 :: rest =>
    if c1 = '/' && c2 = '/' then
      (some (parseLineComment rest).1, (parseLineComment rest).2)
    else if c1 = '/' && c2 = '*' then
      (some (parseBlockComment rest).1, (parseBlockComment rest).2)
    else (none, input)
  | _ => (none, input)

/-- Embedding of try_parse_hashbang_comment (lexer/comment.rs). -/
def tryParseHashbangComment (input : List Char) : Option CommentType × List Char :=
  match input with
  | c1 :: c2 :: rest =>
    if c1 = '#' && c2 = '!' then
      ((some (.Hashbang (rest.takeWhile (fun c => !isLineTerminator c)))),
       (rest.dropWhile (fun c => !isLineTerminator c)).drop 1)
    else (none, input)
  | _ => (none, input)

/-! ## Regex literals (lexer/regex.rs) -/

structure RegexLiteral where
  pattern : List Char
  flags : List Char
  deriving DecidableEq

/-- The pattern loop of parse_regex_pattern: every character up to a slash is
taken verbatim (including backslashes, which receive no special treatment), a
line terminator is fatal, and end of input is an unterminated literal. -/
def regexPatternLoop : List Char → List Char → Except String (List Char × List Char)
  | _, [] => .error "Unterminated regex literal"
  | lexeme, c :: rest =>
    if c = '/' then .ok (lexeme, rest)
    else if isLineTerminator c then
      .error "Unexpected line terminator while parsing regular expression"
    else regexPatternLoop (lexeme ++ [c]) rest

/-- Embedding of parse_regex_pattern (lexer/regex.rs), entered after the
opening slash. -/
def parseRegexPattern (input : List Char) : Except String (List Char × List Char) :=
  regexPatternLoop [] input

/-- The flag loop of parse_regex_flags: the six flag letters accumulate;
whitespace, a semicolon or any non-alphabetic character stops without being
consumed; any other alphabetic character is an invalid flag.  The Unicode
is_whitespace / is_alphabetic of the source are modelled by the ASCII
predicates; the claims only exercise ASCII inputs here. -/
def regexFlagsLoop : List Char → List Char → Except String (List Char × List Char)
  | lexeme, [] => .ok (lexeme, [])
  | lexeme, c :: rest =>
    if c = 'g' || c = 'i' || c = 'm' || c = 's' || c = 'u' || c = 'y' then
      regexFlagsLoop (lexeme ++ [c]) rest
    else if c.isWhitespace then .ok (lexeme, c :: rest)
    else if c = ';' then .ok (lexeme, c :: rest)
    else if c.isAlpha then
      .error ("Invalid regular expression flag '" ++ String.mk [c] ++ "'")
    else .ok (lexeme, c :: rest)

/-- Embedding of parse_regex_flags (lexer/regex.rs). -/
def parseRegexFlags (input : List Char) : Except String (List Char × List Char) :=
  regexFlagsLoop [] input

/-- Embedding of try_parse_regex_literal (lexer/regex.rs): a leading slash
commits to pattern and flags; anything else is no match with nothing
consumed. -/
def tryParseRegexLiteral (input : List Char) :
    Except String (Option RegexLiteral × List Char) :=
  match input with
  | c :: rest =>
    if c = '/' then
      match parseRegexPattern rest with
      | .error e => .error e
      | .ok (pattern, rem1) =>
        match parseRegexFlags rem1 with
        | .error e => .error e
        | .ok (flags, rem2) => .ok (some ⟨pattern, flags⟩, rem2)
    else .ok (none, input)
  | [] => .ok (none, [])

/-! ## Number literals (lexer/num.rs)

IEEE-754 f64 values are abstracted to exact rationals: lexeme.parse f64 and
the widening i64-to-f64 cast are modelled without rounding.  The i64 range
checks, which the claims are about, are modelled exactly. -/

inductive Sign where
  | Positive | Negative
  deriving DecidableEq

/-- From Option char for Sign: a minus sign is negative, anything else
positive. -/
def Sign.fromChar (c : Char) : Sign :=
  if c = '-' then .Negative else .Positive

def Sign.applyQ : Sign → ℚ → ℚ
  | .Positive, v => v
  | .Negative, v => -v

def Sign.applyZ : Sign → ℤ → ℤ
  | .Positive, v => v
  | .Negative, v => -v

inductive NumberLiteralValue where
  | Primitive (value : ℚ)
  | BigInt (value : ℤ) (lexeme : List Char)
  deriving DecidableEq

def isNumericSeparator (c : Char) : Bool := c = '_'

/-- Value of a digit run in the given base (most significant first). -/
def digitsToNat (base : Nat) (ds : List Char) : Nat :=
  ds.foldl (fun a c => a * base + (toDigit c base).getD 0) 0

/-- The maximal i64 value. -/
def i64Max : Nat := 9223372036854775807

/-- Model of i64::from_str_radix on the unsigned digit runs the lexer passes
to it (the sign branches of the std function are never reached here): the
error cases are an empty string, an invalid digit, and positive overflow,
with the std error display texts. -/
def i64FromStrRadix (s : List Char) (base : Nat) : Except String ℤ :=
  if s.isEmpty then .error "cannot parse integer from empty string"
  else if s.all (fun c => (toDigit c base).isSome) then
    if digitsToNat base s ≤ i64Max then .ok ((digitsToNat base s : ℤ))
    else .error "number too large to fit in target type"
  else .error "invalid digit found in string"

/-- The digit-run part of BigInt::parse_bytes: a non-empty run of digits
valid in the base, else None. -/
def bigIntDigitsVal (base : Nat) (ds : List Char) : Option ℤ :=
  if ds.isEmpty then none
  else if ds.all (fun c => (toDigit c base).isSome) then
    some ((digitsToNat base ds : ℤ))
  else none

/-- Model of num_bigint BigInt::parse_bytes: an optional leading sign then a
non-empty run of digits valid in the base; anything else is None. -/
def bigIntParseBytes (s : List Char) (base : Nat) : Option ℤ :=
  match s with
  | c :: ds =>
    if c = '-' then (bigIntDigitsVal base ds).map (fun v => -v)
    else if c = '+' then bigIntDigitsVal base ds
    else bigIntDigitsVal base (c :: ds)
  | [] => bigIntDigitsVal base []

/-- Model of Rust f64 FromStr on the digit-and-dot lexemes this lexer
produces, as an exact rational: defined exactly when there is at least one
digit and at most one dot. -/
def parseF64 (s : List Char) : Option ℚ :=
  if s.all (fun c => isAsciiDigit c || c = '.') &&
      s.count '.' ≤ 1 && s.any isAsciiDigit then
    let intPart := s.takeWhile (fun c => c ≠ '.')
    let fracPart := (s.dropWhile (fun c => c ≠ '.')).drop 1
    some ((digitsToNat 10 intPart : ℚ) +
      (digitsToNat 10 fracPart : ℚ) / ((10 : ℚ) ^ fracPart.length))
  else none

/-- The wrapping i64-to-i32 cast applied to the exponent before powi. -/
def asI32 (v : ℤ) : ℤ := (v + 2 ^ 31) % 2 ^ 32 - 2 ^ 31

/-- The sign lookahead idiom shared by parse_scientific_exponent and
try_parse_number: a peeked plus or minus is consumed into a Sign, anything
else leaves the input untouched with a positive sign. -/
def signLookahead : List Char → Sign × List Char
  | c :: r => if c = '+' || c = '-' then (Sign.fromChar c, r) else (.Positive, c :: r)
  | [] => (.Positive, [])

/-- Embedding of parse_scientific_exponent (lexer/num.rs): consume the
exponent marker, an optional sign, then a non-empty run of decimal digits
(no separator skipping here), parsed as an i64. -/
def parseScientificExponent (input : List Char) : Except String (ℤ × List Char) :=
  if ((signLookahead (input.drop 1)).2.takeWhile isAsciiDigit).isEmpty then
    .error "Expected a number after 'e' while parsing numeric literal"
  else if digitsToNat 10 ((signLookahead (input.drop 1)).2.takeWhile isAsciiDigit) ≤ i64Max then
    .ok ((signLookahead (input.drop 1)).1.applyZ
        (digitsToNat 10 ((signLookahead (input.drop 1)).2.takeWhile isAsciiDigit)),
      (signLookahead (input.drop 1)).2.dropWhile isAsciiDigit)
  else .error "number too large to fit in target type"

/-- The sign insertion of parse_maybe_big_int: a negative sign is prepended
to the lexeme before the BigInt conversion. -/
def signedLexeme : Sign → List Char → List Char
  | .Negative, lexeme => '-' :: lexeme
  | .Positive, lexeme => lexeme

/-- Embedding of parse_maybe_big_int (lexer/num.rs): a pending n suffix
converts the lexeme (with the sign prepended) through BigInt::parse_bytes;
otherwise base 10 goes through the f64 parser and any other base through
i64::from_str_radix widened to a double, with the sign applied at the end. -/
def parseMaybeBigInt (lexeme : List Char) (base : Nat) (sign : Sign)
    (input : List Char) : Except String (NumberLiteralValue × List Char) :=
  if input.head? = some 'n' then
    match bigIntParseBytes (signedLexeme sign lexeme) base with
    | some v => .ok (.BigInt v (signedLexeme sign lexeme ++ ['n']), input.drop 1)
    | none =>
      .error ("failed to parse '" ++ String.mk (signedLexeme sign lexeme) ++
        "' into BigInt")
  else if base = 10 then
    match parseF64 lexeme with
    | some v => .ok (.Primitive (sign.applyQ v), input)
    | none => .error "invalid float literal"
  else
    match i64FromStrRadix lexeme base with
    | .ok v => .ok (.Primitive (sign.applyQ (v : ℚ)), input)
    | .error e => .error e

/-- The accumulation loop of parse_base_10: separators are skipped, digits
and dots (any number of dots) join the lexeme, anything else stops. -/
def base10Accum : List Char → List Char × List Char
  | [] => ([], [])
  | c :: rest =>
    if isNumericSeparator c then base10Accum rest
    else if isAsciiDigit c || c = '.' then
      (c :: (base10Accum rest).1, (base10Accum rest).2)
    else ([], c :: rest)

/-- Embedding of parse_base_10 (lexer/num.rs).  Only a lowercase e enters the
exponent branch, which multiplies by the power of ten and returns directly
(without the big-int check and without applying the sign, as in the
source). -/
def parseBase10 (input : List Char) (sign : Sign) :
    Except String (NumberLiteralValue × List Char) :=
  if (base10Accum input).2.head? = some 'e' then
    match parseScientificExponent (base10Accum input).2 with
    | .error e => .error e
    | .ok (exp, rest2) =>
      match parseF64 (base10Accum input).1 with
      | some v => .ok (.Primitive (v * (10 : ℚ) ^ asI32 exp), rest2)
      | none => .error "invalid float literal"
  else parseMaybeBigInt (base10Accum input).1 10 sign (base10Accum input).2

/-- Embedding of consume_while (lexer/num.rs): separators are skipped,
characters satisfying the predicate join the lexeme, anything else stops. -/
def consumeWhile (pred : Char → Bool) : List Char → List Char × List Char
  | [] => ([], [])
  | c :: rest =>
    if isNumericSeparator c then consumeWhile pred rest
    else if pred c then
      (c :: (consumeWhile pred rest).1, (consumeWhile pred rest).2)
    else ([], c :: rest)

/-- Embedding of parse_hex_number (lexer/num.rs). -/
def parseHexNumber (input : List Char) (sign : Sign) :
    Except String (NumberLiteralValue × List Char) :=
  if (consumeWhile isHexDigit input).1.isEmpty then
    .error "Expected a valid hexadecimal digit after '0x' while parsing numeric literal"
  else
    parseMaybeBigInt (consumeWhile isHexDigit input).1 16 sign
      (consumeWhile isHexDigit input).2

/-- Embedding of parse_bin_number (lexer/num.rs). -/
def parseBinNumber (input : List Char) (sign : Sign) :
    Except String (NumberLiteralValue × List Char) :=
  if (consumeWhile (fun c => c = '0' || c = '1') input).1.isEmpty then
    .error "Expected a valid binary digit after '0b' while parsing numeric literal"
  else
    parseMaybeBigInt (consumeWhile (fun c => c = '0' || c = '1') input).1 2 sign
      (consumeWhile (fun c => c = '0' || c = '1') input).2

/-- Embedding of parse_oct_number (lexer/num.rs). -/
def parseOctNumber (input : List Char) (sign : Sign) :
    Except String (NumberLiteralValue × List Char) :=
  if (consumeWhile isOctDigit input).1.isEmpty then
    .error "Expected a valid octal digit while parsing octal-formatted numeric literal"
  else
    parseMaybeBigInt (consumeWhile isOctDigit input).1 8 sign
      (consumeWhile isOctDigit input).2

/-- Embedding of parse_leading_zero_number (lexer/num.rs): the leading zero
is consumed, then a base marker selects hex, binary or octal, a separator is
fatal, a further digit is legacy octal (parsed from that digit on), and
anything else is the literal zero (with no sign applied, as in the
source). -/
def parseLeadingZeroNumber (input : List Char) (sign : Sign) :
    Except String (NumberLiteralValue × List Char) :=
  match input.drop 1 with
  | c :: rest2 =>
    if c = 'x' || c = 'X' then parseHexNumber rest2 sign
    else if c = 'b' || c = 'B' then parseBinNumber rest2 sign
    else if c = 'o' || c = 'O' then parseOctNumber rest2 sign
    else if c = '_' then .error "Numeric separator can not be used after leading 0"
    else if isAsciiDigit c then parseOctNumber (c :: rest2) sign
    else .ok (.Primitive 0, c :: rest2)
  | [] => .ok (.Primitive 0, [])

/-- Embedding of try_parse_number (lexer/num.rs): an optional leading sign is
consumed first (even when no number follows), then a nonzero digit starts the
base-10 path and a zero the leading-zero path; anything else is no match. -/
def tryParseNumber (input : List Char) :
    Except String (Option NumberLiteralValue × List Char) :=
  match (signLookahead input).2.head? with
  | some c =>
    if isAsciiDigit c && c ≠ '0' then
      match parseBase10 (signLookahead input).2 (signLookahead input).1 with
      | .error e => .error e
      | .ok (v, rem) => .ok (some v, rem)
    else if c = '0' then
      match parseLeadingZeroNumber (signLookahead input).2 (signLookahead input).1 with
      | .error e => .error e
      | .ok (v, rem) => .ok (some v, rem)
    else .ok (none, (signLookahead input).2)
  | none => .ok (none, (signLookahead input).2)

/-! ## Lemmas about the prefix lookup -/

theorem fieldsStartingWith_pos_iff (lexemes : List (List Char)) (p : List Char) :
    0 < fieldsStartingWith lexemes p ↔ ∃ l, l ∈ lexemes ∧ p.isPrefixOf l := by
  rw [fieldsStartingWith, List.length_pos, Ne, List.filter_eq_nil_iff]
  push_neg
  simp

theorem prefixLoop_append (lexemes : List (List Char)) :
    ∀ (rest acc : List Char),
      (prefixLoop lexemes acc rest).1 ++ (prefixLoop lexemes acc rest).2 = acc ++ rest
  | [], acc => by simp [prefixLoop]
  | c :: rest, acc => by
    by_cases h : fieldsStartingWith lexemes (acc ++ [c]) = 0
    · simp [prefixLoop, h]
    · have ih := prefixLoop_append lexemes rest (acc ++ [c])
      simp only [prefixLoop, if_neg h]
      rw [ih]
      simp

theorem prefixLoop_max (lexemes : List (List Char)) :
    ∀ (rest acc : List Char) (c2 : Char) (rem2 : List Char),
      (prefixLoop lexemes acc rest).2 = c2 :: rem2 →
      fieldsStartingWith lexemes ((prefixLoop lexemes acc rest).1 ++ [c2]) = 0
  | [], acc, c2, rem2 => by simp [prefixLoop]
  | c :: rest, acc, c2, rem2 => by
    by_cases h : fieldsStartingWith lexemes (acc ++ [c]) = 0
    · simp only [prefixLoop, if_pos h]
      intro heq
      obtain ⟨rfl, rfl⟩ := List.cons.inj heq
      exact h
    · have ih := prefixLoop_max lexemes rest (acc ++ [c]) c2 rem2
      simp only [prefixLoop, if_neg h]
      exact ih

theorem tryFrom_inv {T : Type} (toLex : T → List Char) (all : List T) :
    ∀ s t, all.find? (fun t2 => toLex t2 == s) = some t → toLex t = s := by
  intro s t h
  have hb := List.find?_some h
  simpa using hb

theorem tryParseFromPrefixLookup_longest {T : Type} (tryFrom : List Char → Option T)
    (toLex : T → List Char) (lexemes : List (List Char))
    (hinv : ∀ s t, tryFrom s = some t → toLex t = s) :
    ∀ (input : List Char) (t : T) (rem : List Char),
      tryParseFromPrefixLookup tryFrom lexemes input = .ok (some t, rem) →
      input = toLex t ++ rem ∧
        ∀ l, l ∈ lexemes → l.isPrefixOf input → l.length ≤ (toLex t).length := by
  intro input t rem h
  match input with
  | [] => simp [tryParseFromPrefixLookup] at h
  | c :: rest =>
    rw [tryParseFromPrefixLookup] at h
    by_cases h0 : 0 < fieldsStartingWith lexemes [c]
    case neg => rw [if_neg h0] at h; simp at h
    rw [if_pos h0] at h
    set s := (prefixLoop lexemes [c] rest).1 with hs
    set rem2 := (prefixLoop lexemes [c] rest).2 with hrem2
    rcases ht : tryFrom s with - | t2
    · rw [ht] at h; exact absurd h (by simp)
    · rw [ht] at h
      simp only [Except.ok.injEq, Prod.mk.injEq, Option.some.injEq] at h
      obtain ⟨ht2, hr⟩ := h
      have hlex : toLex t = s := ht2 ▸ hinv s t2 ht
      have happ : s ++ rem2 = c :: rest := prefixLoop_append lexemes rest [c]
      constructor
      · rw [hlex, ← hr, happ]
      · intro l hl hpre
        by_contra hlen
        push_neg at hlen
        rw [hlex] at hlen
        have hpre2 : l <+: c :: rest := List.isPrefixOf_iff_prefix.mp hpre
        have hsp : s <+: c :: rest := by
          rw [← happ]; exact ⟨rem2, rfl⟩
        rcases List.prefix_or_prefix_of_prefix hsp hpre2 with hsl | hls
        · obtain ⟨d, rfl⟩ := hsl
          match d with
          | [] => simp at hlen
          | c2 :: d2 =>
            have hdp : s ++ c2 :: d2 <+: s ++ rem2 := by rw [happ]; exact hpre2
            rw [List.prefix_append_right_inj] at hdp
            match hrm : rem2, hdp with
            | c3 :: rem3, hdp =>
              rw [List.cons_prefix_cons] at hdp
              obtain ⟨rfl, -⟩ := hdp
              have hmax := prefixLoop_max lexemes rest [c] c2 rem3 hrm
              rw [← hs] at hmax
              have hpos : 0 < fieldsStartingWith lexemes (s ++ [c2]) := by
                rw [fieldsStartingWith_pos_iff]
                exact ⟨s ++ c2 :: d2, hl, List.isPrefixOf_iff_prefix.mpr ⟨d2, by simp⟩⟩
              omega
        · have := hls.length_le
          omega

/-- C1: whenever the prefix-match routine resolves an operator or punctuation
lexeme, it resolves the longest lexeme of the set that is a prefix of the
remaining input and consumes exactly that lexeme, leaving the rest
unconsumed; in particular the operator input of three equals signs resolves
to a single StrictEquality.  (Amended from the original claim: when the
greedy scan ends on a strict prefix of a lexeme that is not itself a lexeme,
the routine panics instead of resolving anything; see the counterexample.) -/
theorem claim1_longest_match :
    (∀ (input : List Char) (t : OperatorType) (rem : List Char),
        tryParseOperator input = .ok (some t, rem) →
        input = t.lexeme ++ rem ∧
          ∀ l, l ∈ opLexemes → l.isPrefixOf input → l.length ≤ t.lexeme.length) ∧
    (∀ (input : List Char) (t : PunctuationType) (rem : List Char),
        tryParsePunctuation input = .ok (some t, rem) →
        input = t.lexeme ++ rem ∧
          ∀ l, l ∈ punctLexemes → l.isPrefixOf input → l.length ≤ t.lexeme.length) ∧
    tryParseOperator ['=', '=', '='] = .ok (some .StrictEquality, []) := by
  refine ⟨?_, ?_, by decide⟩
  · exact tryParseFromPrefixLookup_longest OperatorType.tryFrom OperatorType.lexeme
      opLexemes (tryFrom_inv OperatorType.lexeme allOperators)
  · exact tryParseFromPrefixLookup_longest PunctuationType.tryFrom PunctuationType.lexeme
      punctLexemes (tryFrom_inv PunctuationType.lexeme allPunctuation)

theorem claim1_longest_match_witness :
    (['=', '=', '='] : List Char) = OperatorType.StrictEquality.lexeme ++ [] ∧
      ∀ l, l ∈ opLexemes → l.isPrefixOf ['=', '=', '='] →
        l.length ≤ OperatorType.StrictEquality.lexeme.length :=
  claim1_longest_match.1 ['=', '=', '='] .StrictEquality [] (by decide)

/-- C1 counterexample: on the operator input dot-dot-x the first character
does begin a known lexeme (the spread operator), yet no operator lexeme is a
prefix of the input and the routine resolves nothing: it reaches the panic
modelled as the error value. -/
theorem claim1_counterexample :
    0 < fieldsStartingWith opLexemes ['.'] ∧
      (∀ l, l ∈ opLexemes → ¬ l.isPrefixOf ['.', '.', 'x']) ∧
      tryParseOperator ['.', '.', 'x'] = .error () := by decide

/-- C2: the prefix-match routine is claimed never to fail, but resolving the
operator input dot-dot ends the greedy scan on a two-dot prefix that is not
the serialization of any operator, and the unwrap of try_from panics; the
panic is modelled as the error value of the embedding. -/
theorem claim2_prefix_lookup_panic :
    tryParseOperator ['.', '.'] = .error () ∧
      0 < fieldsStartingWith opLexemes ['.'] := by decide


/-! ## Lemmas about no-match consumption -/

theorem tryParseEscape_none {l l2 : List Char} (h : tryParseEscape l = .ok (none, l2)) :
    ∃ c, isLineTerminator c = true ∧ l = c :: l2 := by
  match l with
  | [] => simp [tryParseEscape] at h
  | c :: rest =>
    rw [tryParseEscape] at h
    split_ifs at h with h1 h2 h3 h4 h5 h6 h7 h8 h9
    · simp at h
    · simp at h
    · simp at h
    · simp at h
    · simp at h
    · simp at h
    · simp at h
    · simp at h
    · have hrest : rest = l2 := by
        simp only [Except.ok.injEq, Prod.mk.injEq, true_and] at h
        exact h
      subst hrest
      refine ⟨c, ?_, rfl⟩
      rcases (by simpa using h9 :
          ((c = Char.ofNat 10 ∨ c = Char.ofNat 13) ∨ c = Char.ofNat 8232) ∨
            c = Char.ofNat 8233) with ((rfl | rfl) | rfl) | rfl <;> decide
    · split at h <;> simp at h

theorem identLoop_isPrefix :
    ∀ (fuel : Nat) (atStart : Bool) (lex input out remi : List Char),
      identLoop fuel atStart lex input = .ok (out, remi) → lex <+: out := by
  intro fuel
  induction fuel with
  | zero =>
    intro atStart lex input out remi h
    match input with
    | [] =>
      simp only [identLoop, Except.ok.injEq, Prod.mk.injEq] at h
      obtain ⟨rfl, rfl⟩ := h
      exact List.prefix_refl _
    | c :: rest => simp [identLoop] at h
  | succ fuel ih =>
    intro atStart lex input out remi h
    match input with
    | [] =>
      simp only [identLoop, Except.ok.injEq, Prod.mk.injEq] at h
      obtain ⟨rfl, rfl⟩ := h
      exact List.prefix_refl _
    | c :: rest =>
      rw [identLoop] at h
      split_ifs at h with h1 h2
      · split at h
        · simp at h
        · next ec rest2 heq =>
            split_ifs at h with hp
            exact (List.prefix_append lex [ec]).trans (ih false (lex ++ [ec]) rest2 out remi h)
        · next rest2 heq => exact ih atStart lex rest2 out remi h
      · exact (List.prefix_append lex [c]).trans (ih false (lex ++ [c]) rest out remi h)
      · simp only [Except.ok.injEq, Prod.mk.injEq] at h
        obtain ⟨rfl, rfl⟩ := h
        exact List.prefix_refl _

theorem identLoop_none_lc :
    ∀ (fuel : Nat) (atStart : Bool) (input rem : List Char),
      identLoop fuel atStart [] input = .ok ([], rem) →
      ∃ cs, isLCRun cs = true ∧ input = cs ++ rem := by
  intro fuel
  induction fuel with
  | zero =>
    intro atStart input rem h
    match input with
    | [] =>
      simp only [identLoop, Except.ok.injEq, Prod.mk.injEq] at h
      exact ⟨[], rfl, by simp [← h.2]⟩
    | c :: rest => simp [identLoop] at h
  | succ fuel ih =>
    intro atStart input rem h
    match input with
    | [] =>
      simp only [identLoop, Except.ok.injEq, Prod.mk.injEq] at h
      exact ⟨[], rfl, by simp [← h.2]⟩
    | c :: rest =>
      rw [identLoop] at h
      split_ifs at h with h1 h2
      · split at h
        · simp at h
        · next ec rest2 heq =>
            split_ifs at h with hp
            have := identLoop_isPrefix fuel false [ec] rest2 [] rem h
            simp at this
        · next rest2 heq =>
            obtain ⟨cs2, hlc, rfl⟩ := ih atStart rest2 rem h
            obtain ⟨lt, hlt, hconsumed⟩ := tryParseEscape_none heq
            refine ⟨c :: lt :: cs2, ?_, by simp [hconsumed]⟩
            simp [isLCRun, h1, hlt, hlc]
      · have := identLoop_isPrefix fuel false [c] rest [] rem h
        simp at this
      · simp only [Except.ok.injEq, Prod.mk.injEq] at h
        exact ⟨[], rfl, by simp [← h.2]⟩

theorem signLookahead_cases (input : List Char) :
    (signLookahead input).2 = input ∨
      ∃ c, (c = '+' ∨ c = '-') ∧ input = c :: (signLookahead input).2 := by
  match input with
  | [] => exact .inl (by simp [signLookahead])
  | c :: r =>
    by_cases hc : c = '+' || c = '-'
    · exact .inr ⟨c, by simpa using hc, by simp [signLookahead, hc]⟩
    · exact .inl (by simp [signLookahead, hc])

/-- C3 (amended): the string, template, regex and comment sub-lexers consume
nothing when they report no match; the number sub-lexer may consume exactly
one leading sign character (the source consumes the sign before checking for
a digit); the identifier sub-lexer may consume a run of line-continuation
escape units (backslash followed by a line terminator). -/
theorem claim3_no_match_consumption :
    (∀ (input rem : List Char), tryParseString input = .ok (none, rem) → rem = input) ∧
    (∀ (input rem : List Char),
        tryParseTemplateLiteralStart input = .ok (none, rem) → rem = input) ∧
    (∀ (input rem : List Char),
        tryParseTemplateLiteralExprEnd input = .ok (none, rem) → rem = input) ∧
    (∀ (input rem : List Char), tryParseRegexLiteral input = .ok (none, rem) → rem = input) ∧
    (∀ (input rem : List Char), tryParseComment input = (none, rem) → rem = input) ∧
    (∀ (input rem : List Char), tryParseNumber input = .ok (none, rem) →
        rem = input ∨ ∃ c, (c = '+' ∨ c = '-') ∧ input = c :: rem) ∧
    (∀ (input rem : List Char), tryParseIdentifier input = .ok (none, rem) →
        ∃ cs, isLCRun cs = true ∧ input = cs ++ rem) := by
  refine ⟨?_, ?_, ?_, ?_, ?_, ?_, ?_⟩
  · intro input rem h
    match input with
    | [] =>
      simp only [tryParseString, Except.ok.injEq, Prod.mk.injEq, true_and] at h
      simp [← h]
    | c :: rest =>
      rw [tryParseString] at h
      split_ifs at h with h1
      · split at h <;> simp at h
      · simp only [Except.ok.injEq, Prod.mk.injEq, true_and] at h
        simp [← h]
  · intro input rem h
    match input with
    | [] =>
      simp only [tryParseTemplateLiteralStart, Except.ok.injEq, Prod.mk.injEq, true_and] at h
      simp [← h]
    | c :: rest =>
      rw [tryParseTemplateLiteralStart] at h
      split_ifs at h with h1
      · split at h <;> simp at h
      · simp only [Except.ok.injEq, Prod.mk.injEq, true_and] at h
        simp [← h]
  · intro input rem h
    match input with
    | [] =>
      simp only [tryParseTemplateLiteralExprEnd, Except.ok.injEq, Prod.mk.injEq, true_and] at h
      simp [← h]
    | c :: rest =>
      rw [tryParseTemplateLiteralExprEnd] at h
      split_ifs at h with h1
      · split at h <;> simp at h
      · simp only [Except.ok.injEq, Prod.mk.injEq, true_and] at h
        simp [← h]
  · intro input rem h
    match input with
    | [] =>
      simp only [tryParseRegexLiteral, Except.ok.injEq, Prod.mk.injEq, true_and] at h
      simp [← h]
    | c :: rest =>
      rw [tryParseRegexLiteral] at h
      split_ifs at h with h1
      · split at h
        · simp at h
        · split at h <;> simp at h
      · simp only [Except.ok.injEq, Prod.mk.injEq, true_and] at h
        simp [← h]
  · intro input rem h
    match input with
    | [] =>
      simp only [tryParseComment, Prod.mk.injEq, true_and] at h
      simp [← h]
    | [c] =>
      simp only [tryParseComment, Prod.mk.injEq, true_and] at h
      simp [← h]
    | c1 :: c2 :: rest =>
      rw [tryParseComment] at h
      split_ifs at h with hs1 hs2
      · simp at h
      · simp at h
      · simp only [Prod.mk.injEq, true_and] at h
        exact h.symm
  · intro input rem h
    rw [tryParseNumber] at h
    split at h
    · next c hc =>
        split_ifs at h with h1 h2
        · split at h <;> simp at h
        · split at h <;> simp at h
        · have hrem : (signLookahead input).2 = rem := by simpa using h
          exact hrem ▸ signLookahead_cases input
    · next hc =>
        have hrem : (signLookahead input).2 = rem := by simpa using h
        exact hrem ▸ signLookahead_cases input
  · intro input rem h
    rw [tryParseIdentifier] at h
    split at h
    · simp at h
    · next lex r heq =>
        split_ifs at h with he
        · have hl : lex = [] := by simpa using he
          subst hl
          have hr : r = rem := by simpa using h
          exact hr ▸ identLoop_none_lc input.length true input r heq
        · split at h
          · simp at h
          · split at h
            · simp at h
            · split at h
              · simp at h
              · simp at h

theorem claim3_witness :
    (∃ cs, isLCRun cs = true ∧
        ([Char.ofNat 92, Char.ofNat 10, '?'] : List Char) = cs ++ ['?']) ∧
      ((['a'] : List Char) = ['+', 'a'] ∨
        ∃ c, (c = '+' ∨ c = '-') ∧ (['+', 'a'] : List Char) = c :: ['a']) :=
  ⟨claim3_no_match_consumption.2.2.2.2.2.2 [Char.ofNat 92, Char.ofNat 10, '?'] ['?']
      (by decide),
   claim3_no_match_consumption.2.2.2.2.2.1 ['+', 'a'] ['a'] (by decide)⟩

/-- C3 counterexample: the number sub-lexer on a plus sign followed by a
letter reports no match yet has consumed the sign: the remaining input
differs from the original input. -/
theorem claim3_counterexample :
    tryParseNumber ['+', 'a'] = .ok (none, ['a']) ∧
      (['a'] : List Char) ≠ ['+', 'a'] := by decide

/-- C4: the template literal with text hi, an embedded identifier x, and the
text there, at sub-lexer level.  The template start lexer on the input of a
backtick, the text hi with a space, a dollar and an open brace returns the
incomplete segment with text hi plus an expression opener and consumes
everything; the identifier lexer on x returns the identifier x; the
expression close lexer on a close brace, the text there and a backtick
returns an expression close, the complete segment with text there, and no
further opener. -/
theorem claim4_template_tokens :
    tryParseTemplateLiteralStart
        [Char.ofNat 96, 'h', 'i', ' ', Char.ofNat 36, Char.ofNat 123] =
      .ok (some (⟨['h', 'i', ' '], false⟩, some .mk), []) ∧
    tryParseIdentifier ['x'] = .ok (some (.Identifier ['x']), []) ∧
    tryParseTemplateLiteralExprEnd
        [Char.ofNat 125, ' ', 't', 'h', 'e', 'r', 'e', Char.ofNat 96] =
      .ok (some (.mk, ⟨[' ', 't', 'h', 'e', 'r', 'e'], true⟩, none), []) := by decide

/-! ## Lemmas about block comments -/

theorem blockCommentLoop_no_close :
    ∀ body : List Char, ¬ (['*', '/'] <:+: body) → blockCommentLoop body = (body, []) := by
  intro body
  induction body with
  | nil => intro _; rfl
  | cons c rest ih =>
    intro hni
    rw [blockCommentLoop]
    split_ifs with hbr
    · exfalso
      obtain ⟨hc, hh⟩ : c = '*' ∧ rest.head? = some '/' := by simpa using hbr
      subst hc
      match rest, hh with
      | r0 :: rest2, hh =>
        have hr0 : r0 = '/' := by simpa using hh
        subst hr0
        exact hni ⟨[], rest2, rfl⟩
    · have hr := ih (fun hin => hni (List.infix_cons hin))
      simp [hr]

/-- C9: an unclosed block comment is not an error: on a slash-star opener
whose body never contains star-slash, the comment sub-lexer consumes the
whole input and returns a block comment holding the entire body. -/
theorem claim9_unterminated_block_comment :
    ∀ body : List Char, ¬ (['*', '/'] <:+: body) →
      tryParseComment ('/' :: '*' :: body) = (some (.Block body), []) := by
  intro body h
  rw [tryParseComment]
  rw [if_neg (by decide), if_pos (by decide)]
  simp [parseBlockComment, blockCommentLoop_no_close body h]

theorem claim9_witness :
    tryParseComment ['/', '*', 'a', 'b', 'c'] = (some (.Block ['a', 'b', 'c']), []) :=
  claim9_unterminated_block_comment ['a', 'b', 'c'] (by decide)

/-! ## Lemmas about regex patterns -/

theorem regexPatternLoop_slash :
    ∀ (pre acc rest : List Char), '/' ∉ pre →
      (∀ c ∈ pre, isLineTerminator c = false) →
      regexPatternLoop acc (pre ++ '/' :: rest) = .ok (acc ++ pre, rest) := by
  intro pre
  induction pre with
  | nil => intro acc rest _ _; simp [regexPatternLoop]
  | cons c pre ih =>
    intro acc rest hns hnl
    have hc : ¬ c = '/' := fun hc => hns (hc ▸ List.mem_cons_self c pre)
    have hl : isLineTerminator c = false := hnl c (List.mem_cons_self c pre)
    rw [List.cons_append, regexPatternLoop, if_neg hc, if_neg (by simp [hl])]
    rw [ih (acc ++ [c]) rest (fun hm => hns (List.mem_cons_of_mem c hm))
      (fun c2 hm => hnl c2 (List.mem_cons_of_mem c hm))]
    simp

theorem regexPatternLoop_eof :
    ∀ (pre acc : List Char), '/' ∉ pre →
      (∀ c ∈ pre, isLineTerminator c = false) →
      regexPatternLoop acc pre = .error "Unterminated regex literal" := by
  intro pre
  induction pre with
  | nil => intro acc _ _; rfl
  | cons c pre ih =>
    intro acc hns hnl
    have hc : ¬ c = '/' := fun hc => hns (hc ▸ List.mem_cons_self c pre)
    have hl : isLineTerminator c = false := hnl c (List.mem_cons_self c pre)
    rw [regexPatternLoop, if_neg hc, if_neg (by simp [hl])]
    exact ih (acc ++ [c]) (fun hm => hns (List.mem_cons_of_mem c hm))
      (fun c2 hm => hnl c2 (List.mem_cons_of_mem c hm))

theorem regexPatternLoop_lineTerminator :
    ∀ (pre acc : List Char) (c : Char) (rest : List Char), '/' ∉ pre →
      (∀ c2 ∈ pre, isLineTerminator c2 = false) → isLineTerminator c = true →
      regexPatternLoop acc (pre ++ c :: rest) =
        .error "Unexpected line terminator while parsing regular expression" := by
  intro pre
  induction pre with
  | nil =>
    intro acc c rest _ _ hlt
    have hc : ¬ c = '/' := by
      intro hc
      subst hc
      simp [isLineTerminator] at hlt
    rw [List.nil_append, regexPatternLoop, if_neg hc, if_pos hlt]
  | cons c0 pre ih =>
    intro acc c rest hns hnl hlt
    have hc : ¬ c0 = '/' := fun hc => hns (hc ▸ List.mem_cons_self c0 pre)
    have hl : isLineTerminator c0 = false := hnl c0 (List.mem_cons_self c0 pre)
    rw [List.cons_append, regexPatternLoop, if_neg hc, if_neg (by simp [hl])]
    exact ih (acc ++ [c0]) c rest (fun hm => hns (List.mem_cons_of_mem c0 hm))
      (fun c2 hm => hnl c2 (List.mem_cons_of_mem c0 hm)) hlt

/-- C8 (amended): the regex pattern is consumed verbatim (backslashes
included, with no escape interpretation) up to the first slash, escaped or
not; a line terminator before the closing slash is fatal; end of input
before it fails as an unterminated regex literal.  (Amended from the
original claim: a slash preceded by a backslash terminates the pattern all
the same; see the counterexample.) -/
theorem claim8_regex_pattern :
    (∀ (pre rest : List Char), '/' ∉ pre →
        (∀ c ∈ pre, isLineTerminator c = false) →
        parseRegexPattern (pre ++ '/' :: rest) = .ok (pre, rest)) ∧
    (∀ pre : List Char, '/' ∉ pre →
        (∀ c ∈ pre, isLineTerminator c = false) →
        parseRegexPattern pre = .error "Unterminated regex literal") ∧
    (∀ (pre : List Char) (c : Char) (rest : List Char), '/' ∉ pre →
        (∀ c2 ∈ pre, isLineTerminator c2 = false) → isLineTerminator c = true →
        parseRegexPattern (pre ++ c :: rest) =
          .error "Unexpected line terminator while parsing regular expression") := by
  refine ⟨?_, ?_, ?_⟩
  · intro pre rest hns hnl
    have := regexPatternLoop_slash pre [] rest hns hnl
    simpa [parseRegexPattern] using this
  · intro pre hns hnl
    exact regexPatternLoop_eof pre [] hns hnl
  · intro pre c rest hns hnl hlt
    exact regexPatternLoop_lineTerminator pre [] c rest hns hnl hlt

theorem claim8_regex_pattern_witness :
    parseRegexPattern ['f', 'o', 'o', '/', 'g'] = .ok (['f', 'o', 'o'], ['g']) ∧
      parseRegexPattern ['f', 'o', 'o'] = .error "Unterminated regex literal" :=
  ⟨claim8_regex_pattern.1 ['f', 'o', 'o'] ['g'] (by decide) (by decide),
   claim8_regex_pattern.2.1 ['f', 'o', 'o'] (by decide) (by decide)⟩

/-- C8 counterexample: a backslash does not protect a slash in the pattern:
after the opening slash of slash-a-backslash-slash-b-slash the pattern stops
at the first slash, keeping only the letter a and the backslash, and the
whole literal then fails on the bogus flag letter b. -/
theorem claim8_counterexample :
    parseRegexPattern ['a', Char.ofNat 92, '/', 'b', '/'] =
        .ok (['a', Char.ofNat 92], ['b', '/']) ∧
      tryParseRegexLiteral ['/', 'a', Char.ofNat 92, '/', 'b', '/'] =
        .error "Invalid regular expression flag 'b'" := by decide

/-! ## Lemmas about non-decimal number literals -/

theorem consumeWhile_spec (pred : Char → Bool) :
    ∀ (run rest : List Char),
      (∀ c ∈ run, pred c = true ∧ isNumericSeparator c = false) →
      (∀ c, rest.head? = some c → (pred c || isNumericSeparator c) = false) →
      consumeWhile pred (run ++ rest) = (run, rest) := by
  intro run
  induction run with
  | nil =>
    intro rest _ hrest
    match rest with
    | [] => rfl
    | c :: r =>
      have := hrest c rfl
      rw [List.nil_append, consumeWhile]
      rw [if_neg (by simp_all), if_neg (by simp_all)]
  | cons c run ih =>
    intro rest hrun hrest
    have hc := hrun c (List.mem_cons_self c run)
    rw [List.cons_append, consumeWhile]
    rw [if_neg (by simp [hc.2]), if_pos hc.1]
    rw [ih rest (fun c2 hm => hrun c2 (List.mem_cons_of_mem c hm)) hrest]

/-- C10: non-decimal literals without a BigInt suffix go through
i64::from_str_radix before widening to a double: a digit value at most
i64::MAX produces a primitive number of that value with the sign applied,
and a digit value above i64::MAX is an error; the hex entry point feeds the
maximal digit run into exactly this path. -/
theorem claim10_non_decimal_i64_bound :
    (∀ (lexeme : List Char) (base : Nat) (sign : Sign) (rest : List Char),
        base ≠ 10 → lexeme ≠ [] →
        (∀ c ∈ lexeme, (toDigit c base).isSome = true) →
        rest.head? ≠ some 'n' →
        (digitsToNat base lexeme ≤ i64Max →
          parseMaybeBigInt lexeme base sign rest =
            .ok (.Primitive (sign.applyQ ((digitsToNat base lexeme : ℤ) : ℚ)), rest)) ∧
        (i64Max < digitsToNat base lexeme →
          parseMaybeBigInt lexeme base sign rest =
            .error "number too large to fit in target type")) ∧
    (∀ (ds rest : List Char) (sign : Sign), ds ≠ [] →
        (∀ c ∈ ds, isHexDigit c = true) →
        (∀ c, rest.head? = some c → (isHexDigit c || isNumericSeparator c) = false) →
        parseHexNumber (ds ++ rest) sign = parseMaybeBigInt ds 16 sign rest) := by
  constructor
  · intro lexeme base sign rest hbase hne hdig hn
    have hunf : parseMaybeBigInt lexeme base sign rest =
        match i64FromStrRadix lexeme base with
        | .ok v => .ok (.Primitive (sign.applyQ (v : ℚ)), rest)
        | .error e => .error e := by
      rw [parseMaybeBigInt, if_neg hn, if_neg hbase]
    have hall : lexeme.all (fun c => (toDigit c base).isSome) = true := by
      simpa [List.all_eq_true] using hdig
    constructor
    · intro hle
      rw [hunf, i64FromStrRadix, if_neg (by simpa using hne), if_pos hall, if_pos hle]
    · intro hgt
      rw [hunf, i64FromStrRadix, if_neg (by simpa using hne), if_pos hall,
        if_neg (by omega)]
  · intro ds rest sign hne hhex hrest
    have hsp : consumeWhile isHexDigit (ds ++ rest) = (ds, rest) :=
      consumeWhile_spec isHexDigit ds rest
        (fun c hm => ⟨hhex c hm, by
          have := hhex c hm
          rcases hs : isNumericSeparator c with - | -
          · rfl
          · exfalso
            have hc : c = '_' := by simpa [isNumericSeparator] using hs
            rw [hc] at this
            simp [isHexDigit, toDigit, charToDigit] at this⟩)
        hrest
    rw [parseHexNumber, hsp]
    simp [hne]

theorem claim10_witness :
    parseMaybeBigInt ['F', 'F'] 16 Sign.Positive [] =
        .ok (.Primitive (Sign.Positive.applyQ ((digitsToNat 16 ['F', 'F'] : ℤ) : ℚ)), []) ∧
      parseMaybeBigInt
          ['8', '0', '0', '0', '0', '0', '0', '0', '0', '0', '0', '0', '0', '0', '0', '0']
          16 Sign.Positive [] = .error "number too large to fit in target type" ∧
      parseHexNumber (['F', 'F'] ++ []) Sign.Positive =
        parseMaybeBigInt ['F', 'F'] 16 Sign.Positive [] :=
  ⟨(claim10_non_decimal_i64_bound.1 ['F', 'F'] 16 Sign.Positive [] (by decide) (by decide)
      (by decide) (by decide)).1 (by decide),
   (claim10_non_decimal_i64_bound.1
      ['8', '0', '0', '0', '0', '0', '0', '0', '0', '0', '0', '0', '0', '0', '0', '0']
      16 Sign.Positive [] (by decide) (by decide) (by decide) (by decide)).2 (by decide),
   claim10_non_decimal_i64_bound.2 ['F', 'F'] [] Sign.Positive (by decide) (by decide)
     (by decide)⟩

/-! ## Lemmas about braced Unicode escapes -/

theorem parseBracedUnicode_digits :
    ∀ (ds : List Char) (v : Nat) (rest : List Char),
      (∀ c ∈ ds, isHexDigit c = true) →
      parseBracedUnicode v (ds ++ Char.ofNat 125 :: rest) =
        .ok (ds.foldl (fun a c => wrap32 (a * 16 + (toDigit c 16).getD 0)) v, rest) := by
  intro ds
  induction ds with
  | nil =>
    intro v rest _
    rw [List.nil_append, parseBracedUnicode]
    rw [if_neg (by decide), if_pos rfl]
    rfl
  | cons c ds ih =>
    intro v rest hhex
    have hc := hhex c (List.mem_cons_self c ds)
    rw [List.cons_append, parseBracedUnicode, if_pos hc]
    rw [ih _ rest (fun c2 hm => hhex c2 (List.mem_cons_of_mem c hm))]
    rfl

theorem parseBracedUnicode_shape :
    ∀ (input : List Char) (v v2 : Nat) (rem : List Char),
      parseBracedUnicode v input = .ok (v2, rem) →
      ∃ ds, input = ds ++ Char.ofNat 125 :: rem ∧ (∀ c ∈ ds, isHexDigit c = true) ∧
        v2 = ds.foldl (fun a c => wrap32 (a * 16 + (toDigit c 16).getD 0)) v := by
  intro input
  induction input with
  | nil => intro v v2 rem h; simp [parseBracedUnicode] at h
  | cons c rest ih =>
    intro v v2 rem h
    rw [parseBracedUnicode] at h
    split_ifs at h with h1 h2
    · obtain ⟨ds, hds, hhex, hval⟩ := ih _ v2 rem h
      exact ⟨c :: ds, by simp [hds], by
        intro c2 hm
        rcases List.mem_cons.mp hm with rfl | hm2
        · exact h1
        · exact hhex c2 hm2, by simp [hval]⟩
    · have : v = v2 ∧ rest = rem := by simpa using h
      exact ⟨[], by simp [h2, this.2], by simp, by simp [this.1]⟩

theorem parseBracedUnicode_malformed :
    ∀ (ds : List Char) (c : Char) (rest : List Char) (v : Nat),
      (∀ c2 ∈ ds, isHexDigit c2 = true) → isHexDigit c = false → c ≠ Char.ofNat 125 →
      parseBracedUnicode v (ds ++ c :: rest) =
        .error "Invalid hexadecimal escape sequence" := by
  intro ds
  induction ds with
  | nil =>
    intro c rest v _ hnh hnb
    rw [List.nil_append, parseBracedUnicode, if_neg (by simp [hnh]), if_neg hnb]
  | cons c0 ds ih =>
    intro c rest v hhex hnh hnb
    rw [List.cons_append, parseBracedUnicode, if_pos (hhex c0 (List.mem_cons_self c0 ds))]
    exact ih c rest _ (fun c2 hm => hhex c2 (List.mem_cons_of_mem c0 hm)) hnh hnb

theorem unicodeValueToChar_valid (v : Nat) (rem : List Char) (h1 : v ≤ 0x10ffff)
    (h2 : v < 0xd800 ∨ 0xe000 ≤ v) :
    unicodeValueToChar v rem = .ok (Char.ofNat v, rem) := by
  rw [unicodeValueToChar, if_neg (by omega), charFromU32, if_pos (by simp; omega)]

theorem unicodeValueToChar_over (v : Nat) (rem : List Char) (h : 0x10ffff < v) :
    unicodeValueToChar v rem = .error "Undefined Unicode code-point" := by
  rw [unicodeValueToChar, if_pos h]

theorem unicodeValueToChar_surrogate (v : Nat) (rem : List Char) (h1 : 0xd800 ≤ v)
    (h2 : v < 0xe000) :
    unicodeValueToChar v rem = .error "Invalid Unicode code-point" := by
  rw [unicodeValueToChar, if_neg (by omega), charFromU32, if_neg (by simp; omega)]

/-- C5 (amended): the braced Unicode escape decoder accepts a possibly empty
run of hex digits closed by a brace; with v the run's value in wrapping u32
arithmetic, it succeeds with the character of code point v exactly when v is
at most 0x10FFFF and not a surrogate; a v above 0x10FFFF fails with
"Undefined Unicode code-point"; a surrogate v fails with "Invalid Unicode
code-point"; and a body character that is neither a hex digit nor the
closing brace fails with "Invalid hexadecimal escape sequence".  (Amended
from the original claim: the empty digit run is accepted and decodes to
U+0000, and surrogate values below 0x10FFFF are rejected; see the
counterexample.) -/
theorem claim5_braced_unicode :
    (∀ (ds rest : List Char), (∀ c ∈ ds, isHexDigit c = true) →
        (bracedValue ds ≤ 0x10ffff →
          (bracedValue ds < 0xd800 ∨ 0xe000 ≤ bracedValue ds) →
          parseUnicodeEscapeSequence (Char.ofNat 123 :: (ds ++ Char.ofNat 125 :: rest)) =
            .ok (Char.ofNat (bracedValue ds), rest)) ∧
        (0x10ffff < bracedValue ds →
          parseUnicodeEscapeSequence (Char.ofNat 123 :: (ds ++ Char.ofNat 125 :: rest)) =
            .error "Undefined Unicode code-point") ∧
        (0xd800 ≤ bracedValue ds → bracedValue ds < 0xe000 →
          parseUnicodeEscapeSequence (Char.ofNat 123 :: (ds ++ Char.ofNat 125 :: rest)) =
            .error "Invalid Unicode code-point")) ∧
    (∀ (ds : List Char) (c : Char) (rest : List Char),
        (∀ c2 ∈ ds, isHexDigit c2 = true) → isHexDigit c = false →
        c ≠ Char.ofNat 125 →
        parseUnicodeEscapeSequence (Char.ofNat 123 :: (ds ++ c :: rest)) =
          .error "Invalid hexadecimal escape sequence") ∧
    (∀ (input : List Char) (ch : Char) (rem : List Char),
        parseUnicodeEscapeSequence (Char.ofNat 123 :: input) = .ok (ch, rem) →
        ∃ ds, input = ds ++ Char.ofNat 125 :: rem ∧
          (∀ c ∈ ds, isHexDigit c = true) ∧ bracedValue ds ≤ 0x10ffff ∧
          ch = Char.ofNat (bracedValue ds)) := by
  refine ⟨?_, ?_, ?_⟩
  · intro ds rest hhex
    have hrun := parseBracedUnicode_digits ds 0 rest hhex
    refine ⟨?_, ?_, ?_⟩
    · intro hle hns
      rw [parseUnicodeEscapeSequence, if_pos rfl]
      simp only [hrun]
      exact unicodeValueToChar_valid (bracedValue ds) rest hle hns
    · intro hgt
      rw [parseUnicodeEscapeSequence, if_pos rfl]
      simp only [hrun]
      exact unicodeValueToChar_over (bracedValue ds) rest hgt
    · intro hlo hhi
      rw [parseUnicodeEscapeSequence, if_pos rfl]
      simp only [hrun]
      exact unicodeValueToChar_surrogate (bracedValue ds) rest hlo hhi
  · intro ds c rest hhex hnh hnb
    rw [parseUnicodeEscapeSequence, if_pos rfl,
      parseBracedUnicode_malformed ds c rest 0 hhex hnh hnb]
  · intro input ch rem h
    rw [parseUnicodeEscapeSequence, if_pos rfl] at h
    split at h
    · simp at h
    · next v rem2 heq =>
        obtain ⟨ds, hds, hhex, hval⟩ := parseBracedUnicode_shape input 0 v rem2 heq
        rw [unicodeValueToChar] at h
        split_ifs at h with hgt
        rw [charFromU32] at h
        split_ifs at h with hvalid
        · have hch : Char.ofNat v = ch ∧ rem2 = rem := by simpa using h
          refine ⟨ds, ?_, hhex, ?_, ?_⟩
          · rw [hds, hch.2]
          · rw [bracedValue, ← hval]; omega
          · rw [← hch.1, bracedValue, ← hval]

theorem claim5_witness :
    parseUnicodeEscapeSequence
        (Char.ofNat 123 :: (['1', 'F', '6', '0', '0'] ++ Char.ofNat 125 :: [])) =
      .ok (Char.ofNat (bracedValue ['1', 'F', '6', '0', '0']), []) ∧
    parseUnicodeEscapeSequence
        (Char.ofNat 123 :: (['1', '1', '0', '0', '0', '0'] ++ Char.ofNat 125 :: [])) =
      .error "Undefined Unicode code-point" :=
  ⟨((claim5_braced_unicode.1 ['1', 'F', '6', '0', '0'] [] (by decide)).1 (by decide)
      (by decide)),
   ((claim5_braced_unicode.1 ['1', '1', '0', '0', '0', '0'] [] (by decide)).2.1
      (by decide))⟩

/-- C5 counterexample: the empty braced escape, a backslash-u with nothing
between the braces, succeeds and decodes to U+0000, whereas the claim says a
body not matching one-or-more hex digits must fail. -/
theorem claim5_counterexample :
    parseUnicodeEscapeSequence [Char.ofNat 123, Char.ofNat 125] =
      .ok (Char.ofNat 0, []) := by decide

/-! ## Lemmas about base-10 number literals and the BigInt suffix -/

theorem charToDigit_dot : charToDigit '.' = none := by decide

theorem toDigit_dot (base : Nat) : toDigit '.' base = none := by
  rw [toDigit, charToDigit_dot]

theorem charToDigit_minus : charToDigit '-' = none := by decide

theorem toDigit_minus (base : Nat) : toDigit '-' base = none := by
  rw [toDigit, charToDigit_minus]

theorem charToDigit_plus : charToDigit '+' = none := by decide

theorem toDigit_plus (base : Nat) : toDigit '+' base = none := by
  rw [toDigit, charToDigit_plus]

theorem bigIntDigitsVal_dot (base : Nat) (ds : List Char) (h : '.' ∈ ds) :
    bigIntDigitsVal base ds = none := by
  rw [bigIntDigitsVal]
  split_ifs with h1 h2
  · rfl
  · exfalso
    have := (List.all_eq_true.mp h2) '.' h
    rw [toDigit_dot] at this
    simp at this
  · rfl

theorem bigIntDigitsVal_digits (base : Nat) (ds : List Char) (hne : ds ≠ [])
    (hall : ∀ c ∈ ds, (toDigit c base).isSome = true) :
    bigIntDigitsVal base ds = some ((digitsToNat base ds : ℤ)) := by
  rw [bigIntDigitsVal, if_neg (by simpa using hne),
    if_pos (List.all_eq_true.mpr hall)]

theorem bigIntParseBytes_signed_dot (base : Nat) (sign : Sign) (lexeme : List Char)
    (h : '.' ∈ lexeme) :
    bigIntParseBytes (signedLexeme sign lexeme) base = none := by
  cases sign with
  | Negative =>
    rw [signedLexeme, bigIntParseBytes, if_pos rfl, bigIntDigitsVal_dot base lexeme h]
    rfl
  | Positive =>
    rw [signedLexeme]
    match lexeme, h with
    | c :: ds, h =>
      rw [bigIntParseBytes]
      split_ifs with h1 h2
      · have hds : '.' ∈ ds := by
          rcases List.mem_cons.mp h with rfl | hm
          · exact absurd h1 (by decide)
          · exact hm
        rw [bigIntDigitsVal_dot base ds hds]
        rfl
      · have hds : '.' ∈ ds := by
          rcases List.mem_cons.mp h with rfl | hm
          · exact absurd h2 (by decide)
          · exact hm
        exact bigIntDigitsVal_dot base ds hds
      · exact bigIntDigitsVal_dot base (c :: ds) h

theorem bigIntParseBytes_digits (base : Nat) (sign : Sign) (lexeme : List Char)
    (hne : lexeme ≠ []) (hall : ∀ c ∈ lexeme, (toDigit c base).isSome = true) :
    bigIntParseBytes (signedLexeme sign lexeme) base =
      some (sign.applyZ (digitsToNat base lexeme)) := by
  cases sign with
  | Negative =>
    rw [signedLexeme, bigIntParseBytes, if_pos rfl,
      bigIntDigitsVal_digits base lexeme hne hall]
    rfl
  | Positive =>
    rw [signedLexeme]
    match lexeme, hne with
    | c :: ds, _ =>
      have hc := hall c (List.mem_cons_self c ds)
      have h1 : ¬ c = '-' := by
        intro hcm
        rw [hcm, toDigit_minus] at hc
        simp at hc
      have h2 : ¬ c = '+' := by
        intro hcm
        rw [hcm, toDigit_plus] at hc
        simp at hc
      rw [bigIntParseBytes, if_neg h1, if_neg h2,
        bigIntDigitsVal_digits base (c :: ds) (by simp) hall]
      rfl

theorem isAsciiDigit_not_dot {c : Char} (h : isAsciiDigit c = true) : ¬ c = '.' := by
  intro hc
  rw [hc] at h
  simp [isAsciiDigit, toDigit_dot] at h

theorem parseF64_digits (ds : List Char) (hne : ds ≠ [])
    (hall : ∀ c ∈ ds, isAsciiDigit c = true) :
    parseF64 ds = some ((digitsToNat 10 ds : ℚ)) := by
  have hcount : ds.count '.' = 0 := List.count_eq_zero.mpr (fun hmem => by
    have := hall '.' hmem
    simp [isAsciiDigit, toDigit_dot] at this)
  have htake : ds.takeWhile (fun c => !(c == '.')) = ds := by
    have : ds = ds ++ [] := by simp
    rw [this, List.takeWhile_append_of_pos (fun c hm => by
      simpa using isAsciiDigit_not_dot (hall c hm))]
    simp
  have hdrop : ds.dropWhile (fun c => !(c == '.')) = [] := by
    rw [show ds = ds ++ ([] : List Char) by simp, List.dropWhile_append_of_pos
      (fun c hm => by simpa using isAsciiDigit_not_dot (hall c hm))]
    simp
  rw [parseF64, if_pos (by
    refine (by simp : (true && true && true : Bool) = true) ▸ ?_
    congr 1
    · congr 1
      · simp only [List.all_eq_true]
        intro c hm
        simp [hall c hm]
      · simp [hcount]
    · match ds, hne with
      | c :: ds, _ => simp [List.any_cons, hall c (List.mem_cons_self c ds)])]
  have htake2 : ds.takeWhile (fun c => decide ¬(c = '.')) = ds := by
    simpa using htake
  have hdrop2 : ds.dropWhile (fun c => decide ¬(c = '.')) = [] := by
    simpa using hdrop
  simp only [htake, hdrop, htake2, hdrop2]
  simp [digitsToNat]

theorem parseF64_two_dots (s : List Char) (h : 2 ≤ s.count '.') : parseF64 s = none := by
  rw [parseF64, if_neg]
  simp only [Bool.and_eq_true, decide_eq_true_eq, not_and]
  intro _ hc
  omega

theorem parseF64_isSome (s : List Char)
    (hall : ∀ c ∈ s, (isAsciiDigit c || decide (c = '.')) = true)
    (hc : s.count '.' ≤ 1) (hany : s.any isAsciiDigit = true) :
    ∃ v, parseF64 s = some v := by
  rw [parseF64, if_pos]
  · exact ⟨_, rfl⟩
  · simp only [Bool.and_eq_true, decide_eq_true_eq]
    exact ⟨⟨List.all_eq_true.mpr hall, hc⟩, hany⟩

theorem base10Accum_spec :
    ∀ (run rest : List Char),
      (∀ c ∈ run, isNumericSeparator c = true ∨
        (isAsciiDigit c || decide (c = '.')) = true) →
      (∀ c, rest.head? = some c → isNumericSeparator c = false ∧
        (isAsciiDigit c || decide (c = '.')) = false) →
      base10Accum (run ++ rest) =
        (run.filter (fun c => !isNumericSeparator c), rest) := by
  intro run
  induction run with
  | nil =>
    intro rest _ hrest
    match rest with
    | [] => rfl
    | c :: r =>
      have hh := hrest c rfl
      rw [List.nil_append, base10Accum, if_neg (by simp [hh.1]),
        if_neg (by simp_all)]
      rfl
  | cons c run ih =>
    intro rest hrun hrest
    have hc := hrun c (List.mem_cons_self c run)
    have ihr := ih rest (fun c2 hm => hrun c2 (List.mem_cons_of_mem c hm)) hrest
    rcases hc with hsep | htake
    · rw [List.cons_append, base10Accum, if_pos hsep, ihr]
      simp [List.filter_cons, hsep]
    · by_cases hsep : isNumericSeparator c = true
      · rw [List.cons_append, base10Accum, if_pos hsep, ihr]
        simp [List.filter_cons, hsep]
      · rw [List.cons_append, base10Accum, if_neg hsep, if_pos (by simpa using htake)]
        rw [ihr]
        simp [List.filter_cons, hsep]

theorem parseScientificExponent_digits (es rest : List Char) (hne : es ≠ [])
    (hall : ∀ c ∈ es, isAsciiDigit c = true)
    (hstop : ∀ c, rest.head? = some c → isAsciiDigit c = false)
    (hbound : digitsToNat 10 es ≤ i64Max) :
    parseScientificExponent ('e' :: (es ++ rest)) =
      .ok ((digitsToNat 10 es : ℤ), rest) := by
  match es, hne with
  | c0 :: es2, _ =>
    have hc0 := hall c0 (List.mem_cons_self c0 es2)
    have hsl : signLookahead ((c0 :: es2) ++ rest) = (.Positive, (c0 :: es2) ++ rest) := by
      rw [List.cons_append, signLookahead, if_neg]
      intro hor
      rcases (by simpa using hor) with rfl | rfl
      · rw [show isAsciiDigit '+' = false by decide] at hc0
        exact absurd hc0 (by simp)
      · rw [show isAsciiDigit '-' = false by decide] at hc0
        exact absurd hc0 (by simp)
    have htail : ('e' :: ((c0 :: es2) ++ rest)).drop 1 = (c0 :: es2) ++ rest := rfl
    have htake : ((c0 :: es2) ++ rest).takeWhile isAsciiDigit = c0 :: es2 := by
      rw [List.takeWhile_append_of_pos hall]
      match rest, hstop with
      | [], _ => simp
      | c :: r, hstop =>
        have hcd : ¬ isAsciiDigit c = true := by simp [hstop c rfl]
        simp [List.takeWhile_cons_of_neg hcd]
    have hdrop : ((c0 :: es2) ++ rest).dropWhile isAsciiDigit = rest := by
      rw [List.dropWhile_append_of_pos hall]
      match rest, hstop with
      | [], _ => simp
      | c :: r, hstop =>
        have hcd : ¬ isAsciiDigit c = true := by simp [hstop c rfl]
        simp [List.dropWhile_cons_of_neg hcd]
    rw [parseScientificExponent, htail, hsl]
    simp only [htake, hdrop]
    rw [if_neg (by simp), if_pos hbound]
    rfl

theorem parseScientificExponent_no_digit (rest : List Char)
    (h : ∀ c, (signLookahead rest).2.head? = some c → isAsciiDigit c = false) :
    parseScientificExponent ('e' :: rest) =
      .error "Expected a number after 'e' while parsing numeric literal" := by
  have htail : ('e' :: rest).drop 1 = rest := rfl
  rw [parseScientificExponent, htail]
  rw [if_pos]
  rcases hr : (signLookahead rest).2 with - | ⟨c, r⟩
  · simp
  · rw [List.takeWhile_cons_of_neg (by simp [h c (by rw [hr]; rfl)])]
    rfl

/-- C6 (amended): a trailing n after a lexeme containing a fractional dot is
the fatal BigInt conversion error; but after an exponent the number lexer
returns the exponentiated value directly, leaving the n unconsumed and
raising no error (the exponent branch returns before the BigInt check); with
neither dot nor exponent, a trailing n yields an arbitrary-precision integer
equal to the lexeme read in its radix, with the sign applied.  (Amended from
the original claim: exponent-plus-n does not error; see the
counterexample.) -/
theorem claim6_bigint_exclusivity :
    (∀ (lexeme : List Char) (base : Nat) (sign : Sign) (rest : List Char),
        '.' ∈ lexeme →
        parseMaybeBigInt lexeme base sign ('n' :: rest) =
          .error ("failed to parse '" ++ String.mk (signedLexeme sign lexeme) ++
            "' into BigInt")) ∧
    (∀ (ds es rest : List Char) (sign : Sign), ds ≠ [] →
        (∀ c ∈ ds, isAsciiDigit c = true) → es ≠ [] →
        (∀ c ∈ es, isAsciiDigit c = true) → digitsToNat 10 es ≤ i64Max →
        parseBase10 (ds ++ 'e' :: (es ++ 'n' :: rest)) sign =
          .ok (.Primitive ((digitsToNat 10 ds : ℚ) *
            (10 : ℚ) ^ asI32 ((digitsToNat 10 es : ℤ))), 'n' :: rest)) ∧
    (∀ (lexeme : List Char) (base : Nat) (sign : Sign) (rest : List Char),
        lexeme ≠ [] → (∀ c ∈ lexeme, (toDigit c base).isSome = true) →
        parseMaybeBigInt lexeme base sign ('n' :: rest) =
          .ok (.BigInt (sign.applyZ (digitsToNat base lexeme))
            (signedLexeme sign lexeme ++ ['n']), rest)) := by
  refine ⟨?_, ?_, ?_⟩
  · intro lexeme base sign rest hdot
    rw [parseMaybeBigInt, if_pos (show ('n' :: rest).head? = some 'n' from rfl)]
    simp only [bigIntParseBytes_signed_dot base sign lexeme hdot]
  · intro ds es rest sign hne hds hesne hes hbound
    have hacc : base10Accum (ds ++ 'e' :: (es ++ 'n' :: rest)) =
        (ds.filter (fun c => !isNumericSeparator c), 'e' :: (es ++ 'n' :: rest)) :=
      base10Accum_spec ds _ (fun c hm => .inr (by simp [hds c hm]))
        (fun c hc => by cases hc; decide)
    have hfil : ds.filter (fun c => !isNumericSeparator c) = ds :=
      List.filter_eq_self.mpr (fun a ha => by
        have hd := hds a ha
        by_cases h_ : a = '_'
        · rw [h_] at hd
          exact absurd hd (by decide)
        · simp [isNumericSeparator, h_])
    rw [hfil] at hacc
    have hexp : parseScientificExponent ('e' :: (es ++ 'n' :: rest)) =
        .ok ((digitsToNat 10 es : ℤ), 'n' :: rest) :=
      parseScientificExponent_digits es ('n' :: rest) hesne hes
        (fun c hc => by cases hc; decide) hbound
    rw [parseBase10]
    simp only [hacc]
    rw [if_pos (show ('e' :: (es ++ 'n' :: rest)).head? = some 'e' from rfl)]
    simp only [hexp, parseF64_digits ds hne hds]
  · intro lexeme base sign rest hne hall
    rw [parseMaybeBigInt, if_pos (show ('n' :: rest).head? = some 'n' from rfl)]
    simp only [bigIntParseBytes_digits base sign lexeme hne hall]
    rfl

theorem claim6_witness :
    parseBase10 (['2'] ++ 'e' :: (['3'] ++ 'n' :: [])) Sign.Positive =
        .ok (.Primitive ((digitsToNat 10 ['2'] : ℚ) *
          (10 : ℚ) ^ asI32 ((digitsToNat 10 ['3'] : ℤ))), 'n' :: []) ∧
      parseMaybeBigInt ['7'] 10 Sign.Negative ('n' :: []) =
        .ok (.BigInt (Sign.Negative.applyZ (digitsToNat 10 ['7']))
          (signedLexeme Sign.Negative ['7'] ++ ['n']), []) ∧
      parseMaybeBigInt ['1', '.', '2'] 10 Sign.Positive ('n' :: []) =
        .error ("failed to parse '" ++
          String.mk (signedLexeme Sign.Positive ['1', '.', '2']) ++ "' into BigInt") :=
  ⟨claim6_bigint_exclusivity.2.1 ['2'] ['3'] [] Sign.Positive (by decide) (by decide)
      (by decide) (by decide) (by decide),
   claim6_bigint_exclusivity.2.2 ['7'] 10 Sign.Negative [] (by decide) (by decide),
   claim6_bigint_exclusivity.1 ['1', '.', '2'] 10 Sign.Positive [] (by decide)⟩

/-- C6 counterexample: the literal 1e2 followed by n silently succeeds with
the primitive value 100 and leaves the n unconsumed, where the claim
demands the fatal BigInt error. -/
theorem claim6_counterexample :
    tryParseNumber ['1', 'e', '2', 'n'] = .ok (some (.Primitive 100), ['n']) := by
  have h1 : tryParseNumber ['1', 'e', '2', 'n'] =
      match parseBase10 ['1', 'e', '2', 'n'] Sign.Positive with
      | .error e => .error e
      | .ok (v, rem) => .ok (some v, rem) := rfl
  have hacc : base10Accum ['1', 'e', '2', 'n'] = (['1'], ['e', '2', 'n']) := by decide
  have hexp : parseScientificExponent ['e', '2', 'n'] = .ok ((2 : ℤ), ['n']) := by decide
  have hf : parseF64 ['1'] = some ((digitsToNat 10 ['1'] : ℚ)) :=
    parseF64_digits ['1'] (by decide) (by decide)
  have hval : ((digitsToNat 10 ['1'] : ℚ)) * (10 : ℚ) ^ asI32 2 = 100 := by
    have hd : digitsToNat 10 ['1'] = 1 := by decide
    have ha : asI32 2 = 2 := by decide
    rw [hd, ha, show ((2 : ℤ)) = ((2 : ℕ) : ℤ) from rfl, zpow_natCast]
    norm_num
  have hb : parseBase10 ['1', 'e', '2', 'n'] Sign.Positive =
      .ok (.Primitive 100, ['n']) := by
    rw [parseBase10]
    simp only [hacc]
    rw [if_pos (show (['e', '2', 'n'] : List Char).head? = some 'e' from rfl)]
    simp only [hexp, hf, hval]
  rw [h1, hb]

/-- C7 (amended): the base-10 accumulation takes digits, dots (any number of
them) and skipped separators; with at most one dot and no exponent the
lexeme parses to its decimal value; with two or more dots the lexer fails
with the float-parse error instead of stopping at the second dot; the
exponent is recognised only on a lowercase e (an optional sign must be
followed by at least one digit, else the fatal expected-a-number error); an
uppercase E is not an exponent marker and ends the number.  (Amended from
the original claim: a second dot is accumulated rather than ending the
lexeme, and E is not recognised; see the counterexample.) -/
theorem claim7_base10_accumulation :
    (∀ (run rest : List Char),
        (∀ c ∈ run, isNumericSeparator c = true ∨
          (isAsciiDigit c || decide (c = '.')) = true) →
        (∀ c, rest.head? = some c → isNumericSeparator c = false ∧
          (isAsciiDigit c || decide (c = '.')) = false) →
        base10Accum (run ++ rest) =
          (run.filter (fun c => !isNumericSeparator c), rest)) ∧
    (∀ (run rest : List Char) (sign : Sign),
        (∀ c ∈ run, isNumericSeparator c = true ∨
          (isAsciiDigit c || decide (c = '.')) = true) →
        (∀ c, rest.head? = some c → isNumericSeparator c = false ∧
          (isAsciiDigit c || decide (c = '.')) = false) →
        rest.head? ≠ some 'e' → rest.head? ≠ some 'n' →
        (run.filter (fun c => !isNumericSeparator c)).count '.' ≤ 1 →
        (run.filter (fun c => !isNumericSeparator c)).any isAsciiDigit = true →
        ∃ v, parseF64 (run.filter (fun c => !isNumericSeparator c)) = some v ∧
          parseBase10 (run ++ rest) sign = .ok (.Primitive (sign.applyQ v), rest)) ∧
    (∀ (run rest : List Char) (sign : Sign),
        (∀ c ∈ run, isNumericSeparator c = true ∨
          (isAsciiDigit c || decide (c = '.')) = true) →
        (∀ c, rest.head? = some c → isNumericSeparator c = false ∧
          (isAsciiDigit c || decide (c = '.')) = false) →
        rest.head? ≠ some 'e' → rest.head? ≠ some 'n' →
        2 ≤ (run.filter (fun c => !isNumericSeparator c)).count '.' →
        parseBase10 (run ++ rest) sign = .error "invalid float literal") ∧
    (∀ rest : List Char,
        (∀ c, rest.head? = some c →
          (isAsciiDigit c || decide (c = '+') || decide (c = '-')) = false) →
        parseScientificExponent ('e' :: rest) =
          .error "Expected a number after 'e' while parsing numeric literal") ∧
    (∀ (sc : Char) (rest : List Char), (sc = '+' ∨ sc = '-') →
        (∀ c, rest.head? = some c → isAsciiDigit c = false) →
        parseScientificExponent ('e' :: sc :: rest) =
          .error "Expected a number after 'e' while parsing numeric literal") ∧
    (∀ (ds rest : List Char) (sign : Sign), ds ≠ [] →
        (∀ c ∈ ds, isAsciiDigit c = true) →
        parseBase10 (ds ++ 'E' :: rest) sign =
          .ok (.Primitive (sign.applyQ ((digitsToNat 10 ds : ℚ))), 'E' :: rest)) := by
  refine ⟨base10Accum_spec, ?_, ?_, ?_, ?_, ?_⟩
  · intro run rest sign hrun hrest hne hnn hcount hany
    have hacc := base10Accum_spec run rest hrun hrest
    have hallf : ∀ c ∈ run.filter (fun c => !isNumericSeparator c),
        (isAsciiDigit c || decide (c = '.')) = true := by
      intro c hm
      obtain ⟨hin, hf⟩ := List.mem_filter.mp hm
      rcases hrun c hin with hsep | hdd
      · rw [hsep] at hf
        simp at hf
      · exact hdd
    obtain ⟨v, hv⟩ := parseF64_isSome _ hallf hcount hany
    refine ⟨v, hv, ?_⟩
    rw [parseBase10]
    simp only [hacc]
    rw [if_neg hne, parseMaybeBigInt, if_neg hnn, if_pos rfl]
    simp only [hv]
  · intro run rest sign hrun hrest hne hnn hcount
    have hacc := base10Accum_spec run rest hrun hrest
    have hv := parseF64_two_dots _ hcount
    rw [parseBase10]
    simp only [hacc]
    rw [if_neg hne, parseMaybeBigInt, if_neg hnn, if_pos rfl]
    simp only [hv]
  · intro rest h
    refine parseScientificExponent_no_digit rest ?_
    intro c hc
    match rest, h with
    | [], h => simp [signLookahead] at hc
    | c0 :: r, h =>
      have h0 := h c0 rfl
      have hns : ¬ (c0 = '+' || c0 = '-') = true := by
        intro hor
        rcases (by simpa using hor) with rfl | rfl <;> simp_all
      rw [signLookahead, if_neg hns] at hc
      have hcc : c0 = c := by simpa using hc
      rw [← hcc]
      exact (by simpa using h0 : (isAsciiDigit c0 = false ∧ ¬ c0 = '+') ∧ ¬ c0 = '-').1.1
  · intro sc rest hsc h
    refine parseScientificExponent_no_digit (sc :: rest) ?_
    intro c hc
    rw [signLookahead, if_pos (by rcases hsc with rfl | rfl <;> simp)] at hc
    exact h c hc
  · intro ds rest sign hne hds
    have hacc : base10Accum (ds ++ 'E' :: rest) =
        (ds.filter (fun c => !isNumericSeparator c), 'E' :: rest) :=
      base10Accum_spec ds _ (fun c hm => .inr (by simp [hds c hm]))
        (fun c hc => by cases hc; decide)
    have hfil : ds.filter (fun c => !isNumericSeparator c) = ds :=
      List.filter_eq_self.mpr (fun a ha => by
        have hd := hds a ha
        by_cases h_ : a = '_'
        · rw [h_] at hd
          exact absurd hd (by decide)
        · simp [isNumericSeparator, h_])
    rw [hfil] at hacc
    rw [parseBase10]
    simp only [hacc]
    rw [if_neg (show ¬ ('E' :: rest).head? = some 'e' by
        intro hcon
        simp at hcon),
      parseMaybeBigInt,
      if_neg (show ¬ ('E' :: rest).head? = some 'n' by
        intro hcon
        simp at hcon),
      if_pos rfl]
    simp only [parseF64_digits ds hne hds]

theorem claim7_witness :
    (∃ v, parseF64 (['1', '.', '5'].filter (fun c => !isNumericSeparator c)) = some v ∧
        parseBase10 (['1', '.', '5'] ++ []) Sign.Positive =
          .ok (.Primitive (Sign.Positive.applyQ v), [])) ∧
      parseBase10 (['1', '.', '2', '.', '3'] ++ []) Sign.Positive =
        .error "invalid float literal" ∧
      parseScientificExponent ['e'] =
        .error "Expected a number after 'e' while parsing numeric literal" ∧
      parseScientificExponent ['e', '-'] =
        .error "Expected a number after 'e' while parsing numeric literal" ∧
      parseBase10 (['1'] ++ 'E' :: ['5']) Sign.Positive =
        .ok (.Primitive (Sign.Positive.applyQ ((digitsToNat 10 ['1'] : ℚ))), 'E' :: ['5']) :=
  ⟨claim7_base10_accumulation.2.1 ['1', '.', '5'] [] Sign.Positive
      (by decide) (by intro c hc; cases hc) (by decide) (by decide) (by decide) (by decide),
   claim7_base10_accumulation.2.2.1 ['1', '.', '2', '.', '3'] [] Sign.Positive
      (by decide) (by intro c hc; cases hc) (by decide) (by decide) (by decide),
   claim7_base10_accumulation.2.2.2.1 [] (by intro c hc; cases hc),
   claim7_base10_accumulation.2.2.2.2.1 '-' [] (.inr rfl) (by intro c hc; cases hc),
   claim7_base10_accumulation.2.2.2.2.2 ['1'] ['5'] Sign.Positive (by decide) (by decide)⟩

/-- C7 counterexample: a second dot does not end the number: on 1.2.3 the
lexer accumulates all three dots into the lexeme and fails with the float
parse error, instead of producing the number 1.2 and leaving .3
unconsumed. -/
theorem claim7_counterexample :
    tryParseNumber ['1', '.', '2', '.', '3'] = .error "invalid float literal" := by decide
